import Mathlib

/-!
# Step sequencer: sequencer core and WAV sample loader

A shallow embedding of `src/sequencer.h` (pattern store, playback state,
cursor, step clock) and of `AudioManager::loadSample` from `src/audio.h`,
followed by the properties established for them.

Machine integers are natural numbers reduced modulo `2^w` at the places
where the C++ code stores into a `uintN_t`; arithmetic on promoted `int`
values is done in `Int`.  The target is a 32-bit little-endian machine:
`size_t` sums and products are taken modulo `2^32`, multi-byte fields are
little-endian.  An integer division by zero has no result in the embedding.
A write past the end of an allocated buffer goes to memory that the embedding
does not track: the buffer keeps the bytes that fit, the call goes on as the
code does, and `readAudioOverrun` gives the bytes written past the end.
-/

namespace StepDrum

/-! ## Constants of `sequencer.h` -/

def NUM_INSTRUMENTS : Nat := 4
def MAX_STEPS : Nat := 8
def MIN_STEPS : Nat := 1
def DEFAULT_BPM : Nat := 120
def MIN_BPM : Nat := 60
def MAX_BPM : Nat := 240

/-! ## Pattern -/

/-- Pattern data: `uint8_t steps[NUM_INSTRUMENTS]`, one byte (eight step bits)
per instrument. -/
structure Pattern where
  steps : Fin NUM_INSTRUMENTS → Nat

namespace Pattern

/-- Source: `return (steps[instrument] >> step) & 0x01;`. -/
def getStep (p : Pattern) (instrument : Fin NUM_INSTRUMENTS) (step : Nat) : Bool :=
  ((p.steps instrument >>> step) &&& 1) != 0

/-- Source: `steps[instrument] |= (1 << step)` when `value`, otherwise
`steps[instrument] &= ~(1 << step)`; the result is stored into a `uint8_t`.
The low byte of `~(1 << step)` is `255 - (1 << step) % 256`. -/
def setStep (p : Pattern) (instrument : Fin NUM_INSTRUMENTS) (step : Nat) (value : Bool) :
    Pattern :=
  if value then
    { steps := Function.update p.steps instrument
        ((p.steps instrument ||| (1 <<< step)) % 256) }
  else
    { steps := Function.update p.steps instrument
        ((p.steps instrument &&& (255 - (1 <<< step) % 256)) % 256) }

/-- Source: `steps[instrument] ^= (1 << step);`. -/
def toggleStep (p : Pattern) (instrument : Fin NUM_INSTRUMENTS) (step : Nat) : Pattern :=
  { steps := Function.update p.steps instrument
      ((p.steps instrument ^^^ (1 <<< step)) % 256) }

/-- Source: the loop `steps[i] = 0` over all instruments. -/
def clear (_p : Pattern) : Pattern :=
  { steps := fun _ => 0 }

end Pattern

/-! ## Playback state -/

/-- The fields of `struct PlaybackState`: `bool`, `uint8_t`, `uint8_t`,
`uint16_t`, `uint32_t`, `uint32_t`. -/
structure PlaybackState where
  isPlaying : Bool
  currentStep : Nat
  patternLength : Nat
  bpm : Nat
  lastStepTimeMs : Nat
  stepIntervalMs : Nat
deriving DecidableEq, Repr

namespace PlaybackState

/-- Every field holds a value of its C++ type. -/
def InRange (p : PlaybackState) : Prop :=
  p.currentStep < 2 ^ 8 ∧ p.patternLength < 2 ^ 8 ∧ p.bpm < 2 ^ 16 ∧
    p.lastStepTimeMs < 2 ^ 32 ∧ p.stepIntervalMs < 2 ^ 32

instance (p : PlaybackState) : Decidable p.InRange := by
  unfold InRange; infer_instance

/-- Source: `stepIntervalMs = 15000 / bpm;` (an `int` division stored into a
`uint32_t`).  A zero `bpm` is a division by zero: no result. -/
def updateInterval (p : PlaybackState) : Option PlaybackState :=
  if p.bpm = 0 then none
  else some { p with stepIntervalMs := (15000 / p.bpm) % 2 ^ 32 }

end PlaybackState

/-! ## Cursor -/

/-- The fields of `struct Cursor`, both `uint8_t`. -/
structure Cursor where
  row : Nat
  col : Nat
deriving DecidableEq, Repr

namespace Cursor

/-- Source: `if (row > 0) row--;`. -/
def moveUp (c : Cursor) : Cursor :=
  if c.row > 0 then { c with row := c.row - 1 } else c

/-- Source: `if (row < NUM_INSTRUMENTS - 1) row++;`. -/
def moveDown (c : Cursor) : Cursor :=
  if (c.row : Int) < (NUM_INSTRUMENTS : Int) - 1 then { c with row := (c.row + 1) % 256 } else c

/-- Source: `if (col > 0) col--;`. -/
def moveLeft (c : Cursor) : Cursor :=
  if c.col > 0 then { c with col := c.col - 1 } else c

/-- Source: `if (col < maxCol - 1) col++;`, the comparison being made on
`int` values. -/
def moveRight (c : Cursor) (maxCol : Nat) : Cursor :=
  if (c.col : Int) < (maxCol : Int) - 1 then { c with col := (c.col + 1) % 256 } else c

/-- Source: `if (col >= length) col = length - 1;` (stored into a `uint8_t`). -/
def clampToLength (c : Cursor) (length : Nat) : Cursor :=
  if c.col ≥ length then { c with col := (((length : Int) - 1) % 256).toNat } else c

end Cursor

/-! ## Sequencer -/

/-- The members of `class Sequencer`. -/
structure Sequencer where
  pattern : Pattern
  playback : PlaybackState
  cursor : Cursor
  trackSamples : Fin NUM_INSTRUMENTS → Nat

namespace Sequencer

/-- Source: `Sequencer::init`.  `lastStepTimeMs` is not assigned by `init`. -/
def init (s : Sequencer) : Option Sequencer :=
  let pb : PlaybackState :=
    { s.playback with
      isPlaying := false, currentStep := 0, patternLength := MAX_STEPS, bpm := DEFAULT_BPM }
  match pb.updateInterval with
  | none => none
  | some pb1 =>
    some { pattern := s.pattern.clear
           playback := pb1
           cursor := { row := 0, col := 0 }
           trackSamples := fun i => i.val }

/-- Source: `Sequencer::update`.  The subtraction is the `uint32_t` one; the
remainder is taken on `int` values and stored into a `uint8_t`; a zero
`patternLength` is a division by zero: no result. -/
def update (s : Sequencer) (currentTimeMs : Nat) : Option (Bool × Sequencer) :=
  if !s.playback.isPlaying then some (false, s)
  else if (currentTimeMs + 2 ^ 32 - s.playback.lastStepTimeMs) % 2 ^ 32
      ≥ s.playback.stepIntervalMs then
    if s.playback.patternLength = 0 then none
    else
      some (true,
        { s with
          playback :=
            { s.playback with
              lastStepTimeMs := currentTimeMs
              currentStep := ((s.playback.currentStep + 1) % s.playback.patternLength) % 256 } })
  else some (false, s)

/-- Source: `Sequencer::togglePlay`; `millis` is the value the call to
`millis()` returns. -/
def togglePlay (s : Sequencer) (millis : Nat) : Sequencer :=
  let s1 : Sequencer := { s with playback := { s.playback with isPlaying := !s.playback.isPlaying } }
  if s1.playback.isPlaying then
    { s1 with playback := { s1.playback with currentStep := 0, lastStepTimeMs := millis } }
  else s1

/-- Source: `Sequencer::stop`. -/
def stop (s : Sequencer) : Sequencer :=
  { s with playback := { s.playback with isPlaying := false, currentStep := 0 } }

/-- Source: `Sequencer::setBPM`. -/
def setBPM (s : Sequencer) (newBpm : Nat) : Option Sequencer :=
  let newBpm1 := if newBpm < MIN_BPM then MIN_BPM else newBpm
  let newBpm2 := if newBpm1 > MAX_BPM then MAX_BPM else newBpm1
  match ({ s.playback with bpm := newBpm2 } : PlaybackState).updateInterval with
  | none => none
  | some pb => some { s with playback := pb }

/-- Source: `setBPM(playback.bpm + delta)`: the sum is an `int`, converted to
the `uint16_t` parameter. -/
def adjustBPM (s : Sequencer) (delta : Int) : Option Sequencer :=
  s.setBPM ((((s.playback.bpm : Int) + delta) % 65536).toNat)

/-- Source: `Sequencer::setPatternLength`. -/
def setPatternLength (s : Sequencer) (length : Nat) : Sequencer :=
  let length1 := if length < MIN_STEPS then MIN_STEPS else length
  let length2 := if length1 > MAX_STEPS then MAX_STEPS else length1
  let s1 : Sequencer :=
    { s with
      playback := { s.playback with patternLength := length2 }
      cursor := s.cursor.clampToLength length2 }
  if s1.playback.currentStep ≥ length2 then
    { s1 with playback := { s1.playback with currentStep := 0 } }
  else s1

/-- Source: `setPatternLength(playback.patternLength + delta)`: the sum is an
`int`, converted to the `uint8_t` parameter. -/
def adjustPatternLength (s : Sequencer) (delta : Int) : Sequencer :=
  s.setPatternLength ((((s.playback.patternLength : Int) + delta) % 256).toNat)

/-- Source: `Sequencer::setTrackSample`. -/
def setTrackSample (s : Sequencer) (track sampleIndex : Nat) : Sequencer :=
  if h : track < NUM_INSTRUMENTS then
    { s with trackSamples := Function.update s.trackSamples ⟨track, h⟩ sampleIndex }
  else s

/-- Source: `Sequencer::getTrackSample`. -/
def getTrackSample (s : Sequencer) (track : Nat) : Nat :=
  if h : track < NUM_INSTRUMENTS then s.trackSamples ⟨track, h⟩ else 0

end Sequencer

/-! ## Storage and memory collaborators of `audio.h` -/

def MAX_SAMPLES : Nat := 16

/-- Modelled from the spec: the storage collaborator's stream (the `File` class
of the SD library, which is not part of the repository): the bytes of the
entry and the read position. -/
structure File where
  bytes : List Nat
  pos : Nat
deriving DecidableEq, Repr

namespace File

/-- Modelled from the spec: `available()`, the number of bytes between the
position and the end of the stream (zero at or past the end). -/
def available (f : File) : Nat := f.bytes.length - f.pos

/-- Modelled from the spec: `read(buf, n)` delivers the next `n` bytes, fewer
when the stream ends first, and advances the position by the number
delivered. -/
def read (f : File) (n : Nat) : List Nat × File :=
  ((f.bytes.drop f.pos).take n, { f with pos := f.pos + ((f.bytes.drop f.pos).take n).length })

/-- Modelled from the spec: `seek(position)`, an absolute repositioning. -/
def seek (f : File) (p : Nat) : File := { f with pos := p }

end File

/-- What the surroundings decide during one call of `loadSample`: which names
the SD card opens (and with which contents), whether each allocation
succeeds, and the indeterminate bytes held by memory that the function reads
before having written it (the local `header` and `chunkId`, and freshly
allocated buffers), given per byte offset. -/
structure Env where
  sdOpen : List Char → Option (List Nat)
  headerInit : Nat → Nat
  chunkIdInit : Nat → Nat
  psMalloc : Nat → Option (Nat → Nat)
  malloc : Nat → Option (Nat → Nat)
  mallocTemp : Nat → Option (Nat → Nat)

/-- The first `n` bytes of a memory area with initial contents `g`. -/
def initBytes (g : Nat → Nat) (n : Nat) : List Nat := (List.range n).map g

/-- A read of `got` into a memory area holding `old`: the bytes delivered
replace the leading bytes, the rest keeps its contents. -/
def overlay (got old : List Nat) : List Nat := got ++ old.drop got.length

/-- The little-endian `uint16_t` stored at offset `off`. -/
def le16 (bs : List Nat) (off : Nat) : Nat :=
  bs.getD off 0 % 256 + 256 * (bs.getD (off + 1) 0 % 256)

/-- The little-endian `uint32_t` stored at offset `off`. -/
def le32 (bs : List Nat) (off : Nat) : Nat :=
  bs.getD off 0 % 256 + 256 * (bs.getD (off + 1) 0 % 256) +
    65536 * (bs.getD (off + 2) 0 % 256) + 16777216 * (bs.getD (off + 3) 0 % 256)

/-- The four bytes of a `uint32_t`, little-endian. -/
def bytesOf32 (n : Nat) : List Nat :=
  [n % 256, n / 256 % 256, n / 65536 % 256, n / 16777216 % 256]

/-- The two bytes of an `int16_t`, little-endian two's complement. -/
def bytesOf16 (x : Int) : List Nat :=
  [((x % 65536).toNat) % 256, ((x % 65536).toNat) / 256]

/-- Conversion of an `int` to `int16_t`. -/
def toInt16 (x : Int) : Int := (x + 32768) % 65536 - 32768

/-- The `int16_t` stored in cell `i` of a sample buffer given by its bytes. -/
def sampleAt (buf : List Nat) (i : Nat) : Int := toInt16 (le16 buf (2 * i))

/-- The ASCII codes of `RIFF`, `WAVE` and `data`. -/
def tagRIFF : List Nat := [82, 73, 70, 70]
def tagWAVE : List Nat := [87, 65, 86, 69]
def tagData : List Nat := [100, 97, 116, 97]

/-- The fields of `struct WavHeader` (36 bytes, no padding). -/
structure WavHeader where
  riff : List Nat
  fileSize : Nat
  wave : List Nat
  fmt : List Nat
  fmtSize : Nat
  audioFormat : Nat
  numChannels : Nat
  sampleRate : Nat
  byteRate : Nat
  blockAlign : Nat
  bitsPerSample : Nat
deriving DecidableEq, Repr

/-- The header held by the 36 bytes of the local `header` after
`file.read((uint8_t*)&header, sizeof(WavHeader))`. -/
def WavHeader.ofBytes (bs : List Nat) : WavHeader :=
  { riff := bs.take 4
    fileSize := le32 bs 4
    wave := (bs.drop 8).take 4
    fmt := (bs.drop 12).take 4
    fmtSize := le32 bs 16
    audioFormat := le16 bs 20
    numChannels := le16 bs 22
    sampleRate := le32 bs 24
    byteRate := le32 bs 28
    blockAlign := le16 bs 32
    bitsPerSample := le16 bs 34 }

/-! ## Sample bank -/

/-- The fields of `struct Sample`; `data` is `none` for `nullptr` and otherwise
the bytes of the buffer pointed to; `name` is the NUL-terminated string held by
the `char[16]`. -/
structure Sample where
  data : Option (List Nat)
  length : Nat
  sampleRate : Nat
  loaded : Bool
  name : List Char
deriving DecidableEq, Repr

/-- The members of `class AudioManager`. -/
structure AudioManager where
  samples : Fin MAX_SAMPLES → Sample
  sampleCount : Nat
  wavFiles : List (List Char)
  sdInitialized : Bool

/-- The ways a call can fail to return: a loop that does not end within the
fuel given, an integer division by zero. -/
inductive Fault where
  | outOfFuel
  | divByZero
deriving DecidableEq, Repr

/-- Source: `SD.open(filename, FILE_READ)` and, when that fails and the name
starts with `/`, `SD.open(filename + 1, FILE_READ)`. -/
def openFile (env : Env) (filename : List Char) : Option File :=
  match env.sdOpen filename with
  | some bs => some { bytes := bs, pos := 0 }
  | none =>
    if filename.head? = some '/' then
      match env.sdOpen (filename.drop 1) with
      | some bs => some { bytes := bs, pos := 0 }
      | none => none
    else none

/-- Source: the loop `while (file.available())` that reads a chunk identifier
and a size into `chunkId` and `dataSize`, stops at the identifier `data`, and
otherwise seeks to `file.position() + dataSize` (a 32-bit sum).  Returns the
file and `dataSize` as the loop leaves them; `none` when the fuel runs out. -/
def findDataChunk : Nat → File → List Nat → Nat → Option (File × Nat)
  | 0, _, _, _ => none
  | fuel + 1, file, chunkId, dataSize =>
    if file.available = 0 then some (file, dataSize)
    else
      let chunkId1 := overlay (file.read 4).1 chunkId
      let file1 := (file.read 4).2
      let dataSize1 := le32 (overlay (file1.read 4).1 (bytesOf32 dataSize)) 0
      let file2 := (file1.read 4).2
      if chunkId1 = tagData then some (file2, dataSize1)
      else findDataChunk fuel (file2.seek ((file2.pos + dataSize1) % 2 ^ 32)) chunkId1 dataSize1

/-- Source: `(int16_t)((temp[i] - 128) << 8)`. -/
def decode8 (b : Nat) : Int := toInt16 (((b : Int) - 128) <<< (8 : Int))

/-- Source: the block `// Read audio data`: a 16-bit payload is read straight
into the sample buffer (`file.read(data, dataSize)`); an 8-bit payload is read
into a temporary buffer of `dataSize` bytes and converted cell by cell for
`i < numSamples` (nothing is written when the temporary buffer cannot be
allocated); any other depth leaves the buffer as allocated.  `buf` holds the
bytes of the sample buffer as allocated; the result is its bytes afterwards.
Neither the read nor the loop checks the size of the buffer: of the bytes
they write, those that fit replace the leading bytes of `buf`, the others are
written past the end of the allocation (`readAudioOverrun`).  No step of the
block fails to return. -/
def readAudioData (env : Env) (header : WavHeader) (file : File) (dataSize numSamples : Nat)
    (buf : List Nat) : Except Fault (List Nat) :=
  if header.bitsPerSample = 16 then
    .ok (overlay ((file.read dataSize).1.take buf.length) buf)
  else if header.bitsPerSample = 8 then
    match env.mallocTemp dataSize with
    | none => .ok buf
    | some g =>
      let temp := overlay (file.read dataSize).1 (initBytes g dataSize)
      .ok (overlay ((((List.range numSamples).map
        (fun i => bytesOf16 (decode8 (temp.getD i 0)))).flatten).take buf.length) buf)
  else .ok buf

/-- The bytes that the block `// Read audio data` writes past the end of the
sample buffer `buf`: what the 16-bit read delivers, or the 8-bit loop
converts, beyond the length of the buffer.  They land in the memory that
follows the allocation. -/
def readAudioOverrun (env : Env) (header : WavHeader) (file : File)
    (dataSize numSamples : Nat) (buf : List Nat) : List Nat :=
  if header.bitsPerSample = 16 then (file.read dataSize).1.drop buf.length
  else if header.bitsPerSample = 8 then
    match env.mallocTemp dataSize with
    | none => []
    | some g =>
      let temp := overlay (file.read dataSize).1 (initBytes g dataSize)
      (((List.range numSamples).map
        (fun i => bytesOf16 (decode8 (temp.getD i 0)))).flatten).drop buf.length
  else []

/-- The index of the last occurrence of `c` at or after index `i`, or `acc`. -/
def lastIndexOfFrom (c : Char) : List Char → Nat → Int → Int
  | [], _, acc => acc
  | x :: xs, i, acc => lastIndexOfFrom c xs (i + 1) (if x = c then (i : Int) else acc)

/-- Source: the block `// Store short name`: drop a leading `/`, cut at the last
`.` when it is not the first character, keep at most 15 characters. -/
def shortNameOf (filename : List Char) : List Char :=
  let shortName := if filename.head? = some '/' then filename.drop 1 else filename
  let dotPos := lastIndexOfFrom '.' shortName 0 (-1)
  let shortName1 := if dotPos > 0 then shortName.take dotPos.toNat else shortName
  shortName1.take 15

/-- Source: `file.read((uint8_t*)&header, sizeof(WavHeader))`: the local
`header` after the read, its bytes not delivered keeping their prior
contents. -/
def readHeader (env : Env) (file : File) : WavHeader :=
  WavHeader.ofBytes (overlay (file.read 36).1 (initBytes env.headerInit 36))

/-- Source: `if (header.fmtSize > 16) file.seek(file.position() + (header.fmtSize - 16));`
(a 32-bit sum). -/
def skipFmtExtra (header : WavHeader) (file : File) : File :=
  if header.fmtSize > 16 then file.seek ((file.pos + (header.fmtSize - 16)) % 2 ^ 32)
  else file

/-- Source: the part of `loadSample` from `// Calculate samples` to the end:
sample count, release of the slot's buffer, allocation (PSRAM first), read of
the audio data, update of the slot and of `sampleCount`. -/
def storeSample (env : Env) (am : AudioManager) (slot : Fin MAX_SAMPLES)
    (filename : List Char) (header : WavHeader) (file : File) (dataSize : Nat) :
    Except Fault (Bool × AudioManager) :=
  if header.bitsPerSample / 8 = 0 then .error Fault.divByZero
  else
    let numSamples := dataSize / (header.bitsPerSample / 8)
    let allocSize := (numSamples * 2) % 2 ^ 32
    match (env.psMalloc allocSize).orElse (fun _ => env.malloc allocSize) with
    | none =>
      .ok (false,
        { am with
          samples := Function.update am.samples slot { am.samples slot with data := none } })
    | some g =>
      match readAudioData env header file dataSize numSamples (initBytes g allocSize) with
      | .error e => .error e
      | .ok buf =>
        .ok (true,
          { am with
            samples := Function.update am.samples slot
              { data := some buf
                length := numSamples
                sampleRate := header.sampleRate
                loaded := true
                name := shortNameOf filename }
            sampleCount :=
              if slot.val ≥ am.sampleCount then (slot.val + 1) % 256 else am.sampleCount })

/-- Source: `AudioManager::loadSample`, `Serial` output left out.  The result
is the value returned with the manager as the call leaves it. -/
def loadSample (fuel : Nat) (env : Env) (am : AudioManager) (index : Nat)
    (filename : List Char) : Except Fault (Bool × AudioManager) :=
  if h : index ≥ MAX_SAMPLES ∨ am.sdInitialized = false then .ok (false, am)
  else
    match openFile env filename with
    | none => .ok (false, am)
    | some file0 =>
      let header := readHeader env file0
      if header.riff ≠ tagRIFF ∨ header.wave ≠ tagWAVE then .ok (false, am)
      else
        match findDataChunk fuel (skipFmtExtra header (file0.read 36).2)
            (initBytes env.chunkIdInit 4) 0 with
        | none => .error Fault.outOfFuel
        | some (file3, dataSize) =>
          if dataSize = 0 then .ok (false, am)
          else
            storeSample env am ⟨index, Nat.lt_of_not_le (fun hge => h (Or.inl hge))⟩
              filename header file3 dataSize

/-! ## Playback dispatch (`main.cpp`) and command sequences -/

/-- The arguments `AudioManager::playSample` hands to `Speaker.playRaw`: the
slot's buffer, length and sample rate, and the channel. -/
structure Voice where
  data : Option (List Nat)
  length : Nat
  sampleRate : Nat
  channel : Nat
deriving DecidableEq, Repr

/-- Source: `AudioManager::playSample`: nothing is played when the index is out
of range or the slot is not loaded; otherwise the slot is handed to
`Speaker.playRaw` on channel `channel % 4`. -/
def AudioManager.playSample (am : AudioManager) (index channel : Nat) : Option Voice :=
  if h : index < MAX_SAMPLES then
    if (am.samples ⟨index, h⟩).loaded then
      some { data := (am.samples ⟨index, h⟩).data
             length := (am.samples ⟨index, h⟩).length
             sampleRate := (am.samples ⟨index, h⟩).sampleRate
             channel := channel % 4 }
    else none
  else none

/-- A call `audio.playSample(slot, channel)` made by the dispatcher. -/
structure Trigger where
  slot : Nat
  channel : Nat
deriving DecidableEq, Repr

/-- Source: the loop `for (uint8_t inst = 0; inst < NUM_INSTRUMENTS; inst++)` of
`loop()`: for each instrument in increasing order whose bit of `step` is set,
the call `audio.playSample(inst, inst)`. -/
def triggerStep (p : Pattern) (step : Nat) : List Trigger :=
  (List.finRange NUM_INSTRUMENTS).filterMap
    (fun inst => if p.getStep inst step then some { slot := inst.val, channel := inst.val }
      else none)

/-- Source: the block `// Update sequencer` of `loop()`, display flags left out:
the sequencer after the block, the value of `stepChanged` (false when `update`
is not called), and the calls to `playSample` in the order made. -/
def dispatch (s : Sequencer) (now : Nat) : Option (Sequencer × Bool × List Trigger) :=
  if s.playback.isPlaying then
    match s.update now with
    | none => none
    | some (stepChanged, s1) =>
      if stepChanged then some (s1, true, triggerStep s1.pattern s1.playback.currentStep)
      else some (s1, false, [])
  else some (s, false, [])

/-- Successive runs of the dispatch block at the given times: for each run in
which the step changed, the step dispatched and the calls made. -/
def ticks : Sequencer → List Nat → Option (Sequencer × List (Nat × List Trigger))
  | s, [] => some (s, [])
  | s, now :: rest =>
    match dispatch s now with
    | none => none
    | some (s1, stepChanged, calls) =>
      match ticks s1 rest with
      | none => none
      | some (s2, log) =>
        some (s2, if stepChanged then (s1.playback.currentStep, calls) :: log else log)

/-- The operations on a sequencer that the claims consider; `moveRight` is
called with the current pattern length, as `handleInput` does. -/
inductive Command where
  | update (now : Nat)
  | togglePlay (millis : Nat)
  | stop
  | setBPM (v : Nat)
  | adjustBPM (d : Int)
  | setPatternLength (v : Nat)
  | adjustPatternLength (d : Int)
  | setStep (i : Fin NUM_INSTRUMENTS) (step : Nat) (v : Bool)
  | toggleStep (i : Fin NUM_INSTRUMENTS) (step : Nat)
  | clear
  | moveUp
  | moveDown
  | moveLeft
  | moveRight

/-- The sequencer after one operation; `none` when the operation has no
result. -/
def Sequencer.exec (s : Sequencer) : Command → Option Sequencer
  | .update now => (s.update now).map (fun r => r.2)
  | .togglePlay millis => some (s.togglePlay millis)
  | .stop => some s.stop
  | .setBPM v => s.setBPM v
  | .adjustBPM d => s.adjustBPM d
  | .setPatternLength v => some (s.setPatternLength v)
  | .adjustPatternLength d => some (s.adjustPatternLength d)
  | .setStep i step v => some { s with pattern := s.pattern.setStep i step v }
  | .toggleStep i step => some { s with pattern := s.pattern.toggleStep i step }
  | .clear => some { s with pattern := s.pattern.clear }
  | .moveUp => some { s with cursor := s.cursor.moveUp }
  | .moveDown => some { s with cursor := s.cursor.moveDown }
  | .moveLeft => some { s with cursor := s.cursor.moveLeft }
  | .moveRight => some { s with cursor := s.cursor.moveRight s.playback.patternLength }

/-- The sequencer after a sequence of operations. -/
def Sequencer.run : Sequencer → List Command → Option Sequencer
  | s, [] => some s
  | s, c :: cs =>
    match s.exec c with
    | none => none
    | some s1 => s1.run cs

/-- The invariant of the sequencer state: playhead and cursor inside the
active pattern, length and tempo inside their limits, interval derived from
the tempo. -/
def Sequencer.Inv (s : Sequencer) : Prop :=
  s.playback.currentStep < s.playback.patternLength ∧
    1 ≤ s.playback.patternLength ∧ s.playback.patternLength ≤ 8 ∧
    60 ≤ s.playback.bpm ∧ s.playback.bpm ≤ 240 ∧
    s.playback.stepIntervalMs = 15000 / s.playback.bpm ∧
    s.cursor.row < 4 ∧ s.cursor.col < s.playback.patternLength

/-! ## Concrete states used in the examples -/

/-- The 36 header bytes of a canonical mono PCM file: `RIFF`, a size, `WAVE`,
`fmt `, a 16-byte format chunk with the given sample rate and bit depth. -/
def pcmHeader (sampleRate bits : Nat) : List Nat :=
  tagRIFF ++ bytesOf32 0 ++ tagWAVE ++ [102, 109, 116, 32] ++ bytesOf32 16 ++ [1, 0] ++ [1, 0] ++
    bytesOf32 sampleRate ++ bytesOf32 (sampleRate * (bits / 8)) ++ [bits / 8, 0] ++ [bits, 0]

/-- A chunk: four identifier bytes, the declared size, the payload. -/
def chunk (id : List Nat) (size : Nat) (payload : List Nat) : List Nat :=
  id ++ bytesOf32 size ++ payload

/-- An SD card holding one file, `/1.wav`; allocations succeed or fail as
`allocOk` says, fresh memory holding the byte `fill` everywhere. -/
def cardWith (bytes : List Nat) (allocOk : Bool) (fill : Nat) : Env :=
  { sdOpen := fun name => if name = "/1.wav".toList then some bytes else none
    headerInit := fun _ => fill
    chunkIdInit := fun _ => fill
    psMalloc := fun _ => if allocOk then some (fun _ => fill) else none
    malloc := fun _ => if allocOk then some (fun _ => fill) else none
    mallocTemp := fun _ => if allocOk then some (fun _ => fill) else none }

/-- A slot as `struct Sample` initialises it. -/
def emptySample : Sample :=
  { data := none, length := 0, sampleRate := 22050, loaded := false, name := [] }

/-- A manager after a successful `init`, nothing loaded. -/
def emptyBank : AudioManager :=
  { samples := fun _ => emptySample, sampleCount := 0, wavFiles := [], sdInitialized := true }

/-- A manager whose slot 0 holds a loaded two-sample buffer named `kick`. -/
def bankWithKick : AudioManager :=
  { samples := fun i =>
      if i.val = 0 then
        { data := some [1, 0, 2, 0], length := 2, sampleRate := 22050, loaded := true,
          name := "kick".toList }
      else emptySample
    sampleCount := 1, wavFiles := [], sdInitialized := true }

/-- A 16-bit mono 22050 Hz file with a 20-byte data chunk. -/
def wav16Mono : List Nat :=
  pcmHeader 22050 16 ++ chunk tagData 20 (List.range 20)

/-- A 16-bit mono 22050 Hz file with a 21-byte data chunk, all 21 payload bytes
present: ten whole samples and one trailing byte. -/
def wav16Odd : List Nat :=
  pcmHeader 22050 16 ++ chunk tagData 21 (List.range 21)

/-- An 8-bit mono file whose data chunk holds the bytes 0, 128, 255. -/
def wav8Mono : List Nat :=
  pcmHeader 22050 8 ++ chunk tagData 3 [0, 128, 255]

/-- A 24-bit mono file with a 6-byte data chunk. -/
def wav24Mono : List Nat :=
  pcmHeader 22050 24 ++ chunk tagData 6 [1, 2, 3, 4, 5, 6]

/-- A 16-bit file that ends after a `LIST` chunk of declared size 4 and has no
data chunk. -/
def wavNoData : List Nat :=
  pcmHeader 22050 16 ++ chunk [76, 73, 83, 84] 4 [0, 0, 0, 0]


/-- A playing sequencer on the last step of a full-length pattern, whose last
step time lies just below the `uint32_t` wrap-around. -/
def seqAtLastStep : Sequencer :=
  { pattern := { steps := fun _ => 0 }
    playback :=
      { isPlaying := true, currentStep := 7, patternLength := 8, bpm := 120,
        lastStepTimeMs := 4294967290, stepIntervalMs := 125 }
    cursor := { row := 0, col := 7 }
    trackSamples := fun i => i.val }

/-- The global `sequencer` object after `init()`: empty pattern, stopped,
eight steps, 120 bpm. -/
def seqInitial : Sequencer :=
  { pattern := { steps := fun _ => 0 }
    playback :=
      { isPlaying := false, currentStep := 0, patternLength := 8, bpm := 120,
        lastStepTimeMs := 0, stepIntervalMs := 125 }
    cursor := { row := 0, col := 0 }
    trackSamples := fun i => i.val }

/-- A stopped sequencer at the minimum tempo with a three-step pattern. -/
def seqSlowShort : Sequencer :=
  { seqInitial with
    playback :=
      { isPlaying := false, currentStep := 0, patternLength := 3, bpm := 60,
        lastStepTimeMs := 0, stepIntervalMs := 250 } }

/-- The sequencer `seqAtLastStep` with step 0 of instruments 0 and 2 switched on
and track 0 assigned to sample slot 5 by `setTrackSample`. -/
def seqRemapped : Sequencer :=
  ({ seqAtLastStep with
      pattern := (seqAtLastStep.pattern.setStep ⟨0, by decide⟩ 0 true).setStep
        ⟨2, by decide⟩ 0 true } : Sequencer).setTrackSample 0 5

/-- Slot 0 of the bank. -/
def slot0 : Fin MAX_SAMPLES := ⟨0, by decide⟩

/-- What a call reports about slot 0: the return value, and the slot's
`loaded`, `length`, `sampleRate`, whether it has a buffer, and the samples
decoded from the buffer. -/
def slot0Report (r : Except Fault (Bool × AudioManager)) :
    Except Fault (Bool × Bool × Nat × Nat × Bool × List Int) :=
  r.map (fun x =>
    (x.1, (x.2.samples slot0).loaded, (x.2.samples slot0).length, (x.2.samples slot0).sampleRate,
      (x.2.samples slot0).data.isSome,
      (List.range (x.2.samples slot0).length).map
        (fun i => sampleAt (((x.2.samples slot0).data).getD []) i)))

/-! ## Step clock -/

/-- The `uint32_t` difference used by `update` is the integer difference
reduced modulo `2^32`. -/
theorem sub32_eq_emod (a b : Nat) (hb : b < 2 ^ 32) :
    (((a + 2 ^ 32 - b) % 2 ^ 32 : Nat) : Int) = ((a : Int) - (b : Int)) % 2 ^ 32 := by
  have h : ((a + 2 ^ 32 - b : Nat) : Int) = (a : Int) - (b : Int) + 2 ^ 32 := by
    omega
  rw [Int.natCast_mod, h]
  simp

/-- C1: `update` returns true exactly when the sequencer is playing and
`(now - lastStepTimeMs) mod 2^32 >= stepIntervalMs`; it then advances
`currentStep` to `(currentStep + 1) mod patternLength` (one step, whatever the
elapsed time) and sets `lastStepTimeMs` to `now`; otherwise it returns false and
the state is unchanged.  With `patternLength = 8` and `currentStep = 7` an
advancing call wraps `currentStep` to 0. -/
theorem update_characterised (s : Sequencer) (now : Nat)
    (hs : s.playback.InRange) (hlen : 1 ≤ s.playback.patternLength) :
    s.update now =
        some (if s.playback.isPlaying = true ∧
                (s.playback.stepIntervalMs : Int)
                  ≤ ((now : Int) - (s.playback.lastStepTimeMs : Int)) % 2 ^ 32 then
              (true,
                { s with
                  playback :=
                    { s.playback with
                      currentStep := (s.playback.currentStep + 1) % s.playback.patternLength
                      lastStepTimeMs := now } })
            else (false, s)) ∧
      (s.playback.isPlaying = false → s.update now = some (false, s)) ∧
      (s.playback.patternLength = 8 → s.playback.currentStep = 7 →
        ∀ s1, s.update now = some (true, s1) → s1.playback.currentStep = 0) := by
  obtain ⟨_, hpl, _, hlast, _⟩ := hs
  have hsub := sub32_eq_emod now s.playback.lastStepTimeMs hlast
  have hmod : (s.playback.currentStep + 1) % s.playback.patternLength % 256
      = (s.playback.currentStep + 1) % s.playback.patternLength := by
    apply Nat.mod_eq_of_lt
    have := Nat.mod_lt (s.playback.currentStep + 1) hlen
    have h256 : s.playback.patternLength < 256 := hpl
    omega
  have hne : s.playback.patternLength ≠ 0 := by omega
  refine ⟨?_, ?_, ?_⟩
  · unfold Sequencer.update
    cases hp : s.playback.isPlaying
    · simp
    · by_cases hdue : (now + 2 ^ 32 - s.playback.lastStepTimeMs) % 2 ^ 32
          ≥ s.playback.stepIntervalMs
      · have hdue2 : (s.playback.stepIntervalMs : Int)
            ≤ ((now : Int) - (s.playback.lastStepTimeMs : Int)) % 2 ^ 32 := by
          rw [← hsub]; exact_mod_cast hdue
        rw [if_neg (by simp), if_pos hdue, if_neg hne, if_pos ⟨rfl, hdue2⟩, hmod]
      · have hdue2 : ¬ (s.playback.stepIntervalMs : Int)
            ≤ ((now : Int) - (s.playback.lastStepTimeMs : Int)) % 2 ^ 32 := by
          rw [← hsub]; exact_mod_cast hdue
        rw [if_neg (by simp), if_neg hdue, if_neg (fun h => hdue2 h.2)]
  · intro hp
    simp [Sequencer.update, hp]
  · intro h8 h7 s1 hup
    unfold Sequencer.update at hup
    cases hp : s.playback.isPlaying
    · simp [hp] at hup
    · by_cases hdue : (now + 2 ^ 32 - s.playback.lastStepTimeMs) % 2 ^ 32
          ≥ s.playback.stepIntervalMs
      · rw [if_neg (by simp [hp]), if_pos hdue, if_neg hne, h8, h7] at hup
        simp only [Option.some.injEq, Prod.mk.injEq, true_and] at hup
        rw [← hup]
      · rw [if_neg (by simp [hp]), if_neg hdue] at hup
        simp at hup

/-- Witness for C1: at time 200, a sequencer whose last step was taken at
`2^32 - 6` has waited 206 ms (modulo `2^32`), which is at least its 125 ms
interval, so it advances from step 7 to step 0. -/
theorem update_characterised_witness :
    seqAtLastStep.playback.InRange ∧ 1 ≤ seqAtLastStep.playback.patternLength ∧
      seqAtLastStep.update 200 =
        some (true,
          { seqAtLastStep with
            playback :=
              { seqAtLastStep.playback with currentStep := 0, lastStepTimeMs := 200 } }) := by
  refine ⟨by decide, by decide, ?_⟩
  have h := (update_characterised seqAtLastStep 200 (by decide) (by decide)).1
  rw [h]
  rfl

/-- C2: `togglePlay` from Stopped gives Playing with `currentStep = 0` and
`lastStepTimeMs` the current time; from Playing it gives Stopped with
`currentStep` and `lastStepTimeMs` unchanged; `stop` gives Stopped with
`currentStep = 0` from any state.  None of them changes `bpm`,
`patternLength`, `stepIntervalMs`, the pattern, the cursor (or the track
assignment). -/
theorem togglePlay_stop_transitions (s : Sequencer) (millis : Nat) :
    (s.playback.isPlaying = false →
        (s.togglePlay millis).playback.isPlaying = true ∧
        (s.togglePlay millis).playback.currentStep = 0 ∧
        (s.togglePlay millis).playback.lastStepTimeMs = millis) ∧
      (s.playback.isPlaying = true →
        (s.togglePlay millis).playback.isPlaying = false ∧
        (s.togglePlay millis).playback.currentStep = s.playback.currentStep ∧
        (s.togglePlay millis).playback.lastStepTimeMs = s.playback.lastStepTimeMs) ∧
      (s.stop.playback.isPlaying = false ∧ s.stop.playback.currentStep = 0 ∧
        s.stop.playback.lastStepTimeMs = s.playback.lastStepTimeMs) ∧
      ((s.togglePlay millis).playback.bpm = s.playback.bpm ∧
        (s.togglePlay millis).playback.patternLength = s.playback.patternLength ∧
        (s.togglePlay millis).playback.stepIntervalMs = s.playback.stepIntervalMs ∧
        (s.togglePlay millis).pattern = s.pattern ∧
        (s.togglePlay millis).cursor = s.cursor ∧
        (s.togglePlay millis).trackSamples = s.trackSamples) ∧
      (s.stop.playback.bpm = s.playback.bpm ∧
        s.stop.playback.patternLength = s.playback.patternLength ∧
        s.stop.playback.stepIntervalMs = s.playback.stepIntervalMs ∧
        s.stop.pattern = s.pattern ∧
        s.stop.cursor = s.cursor ∧
        s.stop.trackSamples = s.trackSamples) := by
  refine ⟨?_, ?_, ?_, ?_, ?_⟩
  · intro h
    simp [Sequencer.togglePlay, h]
  · intro h
    simp [Sequencer.togglePlay, h]
  · simp [Sequencer.stop]
  · cases h : s.playback.isPlaying <;> simp [Sequencer.togglePlay, h]
  · simp [Sequencer.stop]

/-! ## Tempo and pattern length -/

/-- C3: for every 16-bit `v`, `setBPM v` succeeds, leaves `bpm` equal to `v`
clamped to `[60, 240]` and `stepIntervalMs` equal to `15000 / bpm` (integer
division), and changes nothing else; `bpm = 120` gives 125, `bpm = 240` gives 62
and `bpm = 60` gives 250. -/
theorem setBPM_clamps (s : Sequencer) (v : Nat) (hv : v < 2 ^ 16) :
    s.setBPM v =
        some { s with
          playback :=
            { s.playback with
              bpm := max 60 (min v 240)
              stepIntervalMs := 15000 / max 60 (min v 240) } } ∧
      (s.setBPM 120).map (fun t => (t.playback.bpm, t.playback.stepIntervalMs))
        = some (120, 125) ∧
      (s.setBPM 240).map (fun t => (t.playback.bpm, t.playback.stepIntervalMs))
        = some (240, 62) ∧
      (s.setBPM 60).map (fun t => (t.playback.bpm, t.playback.stepIntervalMs))
        = some (60, 250) := by
  refine ⟨?_, ?_, ?_, ?_⟩
  · have hne : (if (if v < MIN_BPM then MIN_BPM else v) > MAX_BPM then MAX_BPM
        else (if v < MIN_BPM then MIN_BPM else v)) ≠ 0 := by
      unfold MIN_BPM MAX_BPM; split_ifs <;> omega
    have hclamp : (if (if v < MIN_BPM then MIN_BPM else v) > MAX_BPM then MAX_BPM
        else (if v < MIN_BPM then MIN_BPM else v)) = max 60 (min v 240) := by
      unfold MIN_BPM MAX_BPM; split_ifs <;> omega
    have hlt : 15000 / max 60 (min v 240) < 2 ^ 32 :=
      lt_of_le_of_lt (Nat.div_le_self _ _) (by norm_num)
    simp only [Sequencer.setBPM, PlaybackState.updateInterval, if_neg hne]
    simp only [hclamp, Nat.mod_eq_of_lt hlt]
  · simp [Sequencer.setBPM, PlaybackState.updateInterval, MIN_BPM, MAX_BPM]
  · simp [Sequencer.setBPM, PlaybackState.updateInterval, MIN_BPM, MAX_BPM]
  · simp [Sequencer.setBPM, PlaybackState.updateInterval, MIN_BPM, MAX_BPM]

/-- Witness for C3: the largest 16-bit request is clamped to 240 bpm, with a
step interval of 62 ms. -/
theorem setBPM_clamps_witness :
    65535 < 2 ^ 16 ∧
      seqAtLastStep.setBPM 65535 =
        some { seqAtLastStep with
          playback := { seqAtLastStep.playback with bpm := 240, stepIntervalMs := 62 } } := by
  refine ⟨by decide, ?_⟩
  rw [(setBPM_clamps seqAtLastStep 65535 (by decide)).1]
  rfl

/-- C4: for every 8-bit `v`, `setPatternLength v` leaves `patternLength` equal
to `v` clamped to `[1, 8]`; `currentStep` becomes 0 when the new length is at
most the previous `currentStep` and is unchanged otherwise; the pattern, `bpm`
and `isPlaying` are unchanged. -/
theorem setPatternLength_clamps (s : Sequencer) (v : Nat) (hv : v < 2 ^ 8) :
    (s.setPatternLength v).playback.patternLength = max 1 (min v 8) ∧
      (max 1 (min v 8) ≤ s.playback.currentStep →
        (s.setPatternLength v).playback.currentStep = 0) ∧
      (s.playback.currentStep < max 1 (min v 8) →
        (s.setPatternLength v).playback.currentStep = s.playback.currentStep) ∧
      (s.setPatternLength v).pattern = s.pattern ∧
      (s.setPatternLength v).playback.bpm = s.playback.bpm ∧
      (s.setPatternLength v).playback.isPlaying = s.playback.isPlaying := by
  have hclamp : (if (if v < MIN_STEPS then MIN_STEPS else v) > MAX_STEPS then MAX_STEPS
      else (if v < MIN_STEPS then MIN_STEPS else v)) = max 1 (min v 8) := by
    unfold MIN_STEPS MAX_STEPS; split_ifs <;> omega
  unfold Sequencer.setPatternLength
  simp only [hclamp]
  refine ⟨?_, ?_, ?_, ?_, ?_, ?_⟩
  · split_ifs <;> rfl
  · intro h
    split_ifs
    · rfl
    · rename_i hn; exact absurd h hn
  · intro h
    rw [if_neg (not_le.mpr h)]
  · split_ifs <;> rfl
  · split_ifs <;> rfl
  · split_ifs <;> rfl

/-- Witness for C4: shrinking an eight-step pattern to three steps while the
playhead is on step 7 sends the playhead to step 0 (not to step 2). -/
theorem setPatternLength_clamps_witness :
    3 < 2 ^ 8 ∧ (seqAtLastStep.setPatternLength 3).playback.patternLength = 3 ∧
      (seqAtLastStep.setPatternLength 3).playback.currentStep = 0 := by
  have h := setPatternLength_clamps seqAtLastStep 3 (by decide)
  refine ⟨by decide, ?_, ?_⟩
  · rw [h.1]; decide
  · exact h.2.1 (by decide)

/-! ## Sample loading -/

/-- A read delivers at most the bytes left. -/
theorem File.read_fst (f : File) (n : Nat) : (f.read n).1 = (f.bytes.drop f.pos).take n := rfl

/-- After a read the position has advanced by the number of bytes delivered. -/
theorem File.read_snd_pos (f : File) (n : Nat) :
    (f.read n).2.pos = f.pos + min n (f.bytes.length - f.pos) := by
  simp [File.read]

/-- A read does not change the contents of the file. -/
theorem File.read_snd_bytes (f : File) (n : Nat) : (f.read n).2.bytes = f.bytes := rfl

/-- The leading bytes of a memory area after a read are the bytes delivered. -/
theorem overlay_take (got old : List Nat) (k : Nat) (hk : k ≤ got.length) :
    (overlay got old).take k = got.take k := by
  unfold overlay
  rw [List.take_append_of_le_length hk]

/-- The bytes of a memory area after a read, inside the part delivered. -/
theorem overlay_drop_take (got old : List Nat) (a k : Nat) (hk : a + k ≤ got.length) :
    ((overlay got old).drop a).take k = (got.drop a).take k := by
  unfold overlay
  rw [List.drop_append_of_le_length (by omega), List.take_append_of_le_length (by simp; omega)]

/-- With no byte left, the chunk scan ends at once and leaves `dataSize` as it
was. -/
theorem findDataChunk_at_end (fuel : Nat) (file : File) (chunkId : List Nat) (dataSize : Nat)
    (hfuel : 0 < fuel) (hend : file.available = 0) :
    findDataChunk fuel file chunkId dataSize = some (file, dataSize) := by
  obtain ⟨n, rfl⟩ : ∃ n, fuel = n + 1 := ⟨fuel - 1, by omega⟩
  simp [findDataChunk, hend]

/-- A `uint32_t` read from memory is below `2^32`. -/
theorem le32_lt (bs : List Nat) (off : Nat) : le32 bs off < 2 ^ 32 := by
  unfold le32
  have h0 := Nat.mod_lt (bs.getD off 0) (show 0 < 256 by norm_num)
  have h1 := Nat.mod_lt (bs.getD (off + 1) 0) (show 0 < 256 by norm_num)
  have h2 := Nat.mod_lt (bs.getD (off + 2) 0) (show 0 < 256 by norm_num)
  have h3 := Nat.mod_lt (bs.getD (off + 3) 0) (show 0 < 256 by norm_num)
  omega

/-- For a stream of at least 12 bytes the tags of the header read are the
stream's bytes 0..3 and 8..11. -/
theorem readHeader_tags (env : Env) (bytes : List Nat) (hlen : 12 ≤ bytes.length) :
    (readHeader env { bytes := bytes, pos := 0 }).riff = bytes.take 4 ∧
      (readHeader env { bytes := bytes, pos := 0 }).wave = (bytes.drop 8).take 4 := by
  have hgot : 12 ≤ ((File.read { bytes := bytes, pos := 0 } 36).1).length := by
    simp [File.read]; omega
  simp only [readHeader, WavHeader.ofBytes]
  rw [overlay_take _ _ 4 (by omega), overlay_drop_take _ _ 8 4 (by omega)]
  simp [File.read, List.take_take, List.drop_take]

/-- When the header read has used up a stream of at most 16 bytes, nothing is
left after the skip of the format chunk's extra bytes either. -/
theorem skipFmtExtra_at_end (env : Env) (bytes : List Nat) (hlen : bytes.length ≤ 16) :
    (skipFmtExtra (readHeader env { bytes := bytes, pos := 0 })
      (File.read { bytes := bytes, pos := 0 } 36).2).available = 0 := by
  have hlt := le32_lt (overlay (File.read { bytes := bytes, pos := 0 } 36).1
    (initBytes env.headerInit 36)) 16
  have hpos : (File.read { bytes := bytes, pos := 0 } 36).2.pos = bytes.length := by
    rw [File.read_snd_pos]; simp; omega
  unfold skipFmtExtra
  split
  · rename_i hgt
    simp only [readHeader, WavHeader.ofBytes] at hgt ⊢
    simp only [File.seek, File.available, File.read_snd_bytes, hpos]
    rw [Nat.mod_eq_of_lt (by omega)]
    omega
  · simp only [File.available, File.read_snd_bytes, hpos]
    omega

/-- C6: for every stream whose leading four bytes are not `RIFF` or whose
bytes 8..11 are not `WAVE`, `loadSample` returns false and leaves the whole
manager, hence the slot's buffer, length and name, unchanged (for any slot
index, allocator behaviour and prior memory contents). -/
theorem loadSample_invalid_tag (fuel : Nat) (env : Env) (am : AudioManager) (index : Nat)
    (filename : List Char) (bytes : List Nat)
    (hfuel : 0 < fuel)
    (hopen : openFile env filename = some { bytes := bytes, pos := 0 })
    (hbad : bytes.take 4 ≠ tagRIFF ∨ (bytes.drop 8).take 4 ≠ tagWAVE) :
    loadSample fuel env am index filename = .ok (false, am) := by
  unfold loadSample
  split
  · rfl
  · simp only [hopen]
    split
    · rfl
    · rename_i htag
      have hshort : bytes.length < 12 := by
        by_contra hlen
        obtain ⟨h1, h2⟩ := readHeader_tags env bytes (by omega)
        rw [h1, h2] at htag
        exact htag hbad
      rw [findDataChunk_at_end fuel _ _ _ hfuel (skipFmtExtra_at_end env bytes (by omega))]
      simp

/-- Witness for C6: a file that starts with `RIFX` is rejected and the bank,
slot 0 loaded before the call, is as before. -/
theorem loadSample_invalid_tag_witness :
    0 < 1 ∧
      openFile (cardWith ([82, 73, 70, 88] ++ wav16Mono.drop 4) true 0) "/1.wav".toList
        = some { bytes := [82, 73, 70, 88] ++ wav16Mono.drop 4, pos := 0 } ∧
      (([82, 73, 70, 88] ++ wav16Mono.drop 4).take 4 ≠ tagRIFF ∨
        ((([82, 73, 70, 88] ++ wav16Mono.drop 4).drop 8).take 4 ≠ tagWAVE)) ∧
      loadSample 1 (cardWith ([82, 73, 70, 88] ++ wav16Mono.drop 4) true 0) bankWithKick 0
        "/1.wav".toList = .ok (false, bankWithKick) :=
  ⟨by decide, rfl, Or.inl (by decide),
    loadSample_invalid_tag 1 _ bankWithKick 0 _ _ (by decide) rfl (Or.inl (by decide))⟩

/-- A byte of a memory area after a read, inside the part delivered. -/
theorem overlay_getD (got old : List Nat) (i d : Nat) (hi : i < got.length) :
    (overlay got old).getD i d = got.getD i d := by
  unfold overlay
  exact List.getD_append _ _ _ _ hi

/-- A byte of the first `n` bytes of a list. -/
theorem take_getD (l : List Nat) (n i d : Nat) (h : i < n) :
    (l.take n).getD i d = l.getD i d := by
  simp [List.getD_eq_getElem?_getD, List.getElem?_take, h]

/-- A file just opened is at position 0. -/
theorem openFile_pos (env : Env) (filename : List Char) (f : File)
    (h : openFile env filename = some f) : f.pos = 0 := by
  unfold openFile at h
  split at h
  · cases h; rfl
  · split at h
    · split at h
      · cases h; rfl
      · cases h
    · cases h

/-- For a stream of at least 36 bytes the header read holds the stream's first
36 bytes: each header byte is the stream's byte at the same offset. -/
theorem readHeader_bytes (env : Env) (bytes : List Nat) (hlen : 36 ≤ bytes.length)
    (i : Nat) (hi : i < 36) :
    (overlay (File.read { bytes := bytes, pos := 0 } 36).1 (initBytes env.headerInit 36)).getD i 0
      = bytes.getD i 0 := by
  have hgot : ((File.read { bytes := bytes, pos := 0 } 36).1).length = 36 := by
    simp [File.read]; omega
  rw [overlay_getD _ _ _ _ (by omega)]
  simp only [File.read, List.drop_zero]
  exact take_getD _ _ _ _ hi

/-- When the chunk at the position is a complete `data` chunk header, the scan
stops there with the size that chunk declares. -/
theorem findDataChunk_data_first (fuel : Nat) (file : File) (chunkId : List Nat) (dataSize : Nat)
    (hfuel : 0 < fuel) (hcid : chunkId.length ≤ 4)
    (hlen : file.pos + 8 ≤ file.bytes.length)
    (htag : (file.bytes.drop file.pos).take 4 = tagData) :
    findDataChunk fuel file chunkId dataSize
      = some ({ bytes := file.bytes, pos := file.pos + 8 }, le32 file.bytes (file.pos + 4)) := by
  obtain ⟨n, rfl⟩ : ∃ n, fuel = n + 1 := ⟨fuel - 1, by omega⟩
  have hav : file.available ≠ 0 := by unfold File.available; omega
  have h1 : (file.read 4).1 = tagData := htag
  have h1len : ((file.read 4).1).length = 4 := by rw [h1]; rfl
  have hc : overlay (file.read 4).1 chunkId = tagData := by
    unfold overlay
    rw [h1len, List.drop_eq_nil_of_le hcid, List.append_nil, h1]
  have hp1 : (file.read 4).2.pos = file.pos + 4 := by
    rw [File.read_snd_pos]; omega
  have hb1 : (file.read 4).2.bytes = file.bytes := rfl
  have h2len : (((file.read 4).2.read 4).1).length = 4 := by
    simp [File.read_fst, hp1, hb1]; omega
  have hp2 : ((file.read 4).2.read 4).2.pos = file.pos + 8 := by
    rw [File.read_snd_pos, hp1, hb1]; omega
  have hsize : le32 (overlay ((file.read 4).2.read 4).1 (bytesOf32 dataSize)) 0
      = le32 file.bytes (file.pos + 4) := by
    have hg : ∀ i, i < 4 →
        (overlay ((file.read 4).2.read 4).1 (bytesOf32 dataSize)).getD i 0
          = file.bytes.getD (file.pos + 4 + i) 0 := by
      intro i hi
      rw [overlay_getD _ _ _ _ (by omega), File.read_fst, hp1, hb1, take_getD _ _ _ _ hi]
      simp [List.getD_eq_getElem?_getD]
    unfold le32
    rw [hg 0 (by omega), hg (0 + 1) (by omega), hg (0 + 2) (by omega), hg (0 + 3) (by omega)]
  rw [findDataChunk, if_neg hav]
  simp only [hc, hsize, if_true]
  congr 2
  cases hf : (file.read 4).2.read 4 with
  | mk got f2 =>
    have e1 : f2.pos = file.pos + 8 := by rw [← hp2, hf]
    have e2 : f2.bytes = file.bytes := by
      have := File.read_snd_bytes (file.read 4).2 4
      rw [hf] at this; exact this
    cases f2
    simp only [File.mk.injEq]
    exact ⟨e2, e1⟩

/-- The length of a fresh memory area. -/
theorem initBytes_length (g : Nat → Nat) (n : Nat) : (initBytes g n).length = n := by
  simp [initBytes]

/-- Writing the bytes that fit into a buffer does not change its length. -/
theorem overlay_take_length (written buf : List Nat) :
    (overlay (written.take buf.length) buf).length = buf.length := by
  unfold overlay
  rw [List.length_append, List.length_drop, List.length_take]
  omega

/-- The block `// Read audio data` always returns, with a buffer of the length
allocated. -/
theorem readAudioData_ok (env : Env) (header : WavHeader) (file : File)
    (dataSize numSamples : Nat) (buf : List Nat) :
    ∃ out, readAudioData env header file dataSize numSamples buf = .ok out ∧
      out.length = buf.length := by
  unfold readAudioData
  split
  · exact ⟨_, rfl, overlay_take_length _ _⟩
  · split
    · split
      · exact ⟨_, rfl, rfl⟩
      · exact ⟨_, rfl, overlay_take_length _ _⟩
    · exact ⟨_, rfl, rfl⟩

/-- The storing part of `loadSample` returns true only with a bit depth of at
least 8, the slot marked loaded, its length the floor of
`dataSize / (bitsPerSample / 8)`, its sample rate the header's, and a buffer
of `2 * length` bytes (modulo `2^32`). -/
theorem storeSample_true (env : Env) (am am1 : AudioManager) (slot : Fin MAX_SAMPLES)
    (filename : List Char) (header : WavHeader) (file : File) (dataSize : Nat)
    (h : storeSample env am slot filename header file dataSize = .ok (true, am1)) :
    header.bitsPerSample / 8 ≠ 0 ∧
      (am1.samples slot).length = dataSize / (header.bitsPerSample / 8) ∧
      (am1.samples slot).sampleRate = header.sampleRate ∧
      (am1.samples slot).loaded = true ∧
      ∃ buf, (am1.samples slot).data = some buf ∧
        buf.length = (dataSize / (header.bitsPerSample / 8) * 2) % 2 ^ 32 := by
  unfold storeSample at h
  by_cases hb : header.bitsPerSample / 8 = 0
  · rw [if_pos hb] at h; cases h
  · rw [if_neg hb] at h
    dsimp only at h
    cases hal : (env.psMalloc (dataSize / (header.bitsPerSample / 8) * 2 % 2 ^ 32)).orElse
        (fun _ => env.malloc (dataSize / (header.bitsPerSample / 8) * 2 % 2 ^ 32)) with
    | none => simp only [hal] at h; cases h
    | some g =>
      simp only [hal] at h
      obtain ⟨out, hr, hlen⟩ := readAudioData_ok env header file dataSize
        (dataSize / (header.bitsPerSample / 8))
        (initBytes g (dataSize / (header.bitsPerSample / 8) * 2 % 2 ^ 32))
      rw [initBytes_length] at hlen
      simp only [hr] at h
      cases h
      refine ⟨hb, ?_, ?_, ?_, out, ?_, hlen⟩ <;> simp

/-- With a bit depth of at least 8 and an allocator that delivers, the storing
part of `loadSample` returns true. -/
theorem storeSample_loads (env : Env) (am : AudioManager) (slot : Fin MAX_SAMPLES)
    (filename : List Char) (header : WavHeader) (file : File) (dataSize : Nat)
    (hb : header.bitsPerSample / 8 ≠ 0)
    (halloc : ∀ n, (env.psMalloc n).orElse (fun _ => env.malloc n) ≠ none) :
    ∃ am1, storeSample env am slot filename header file dataSize = .ok (true, am1) := by
  unfold storeSample
  rw [if_neg hb]
  dsimp only
  cases hal : (env.psMalloc (dataSize / (header.bitsPerSample / 8) * 2 % 2 ^ 32)).orElse
      (fun _ => env.malloc (dataSize / (header.bitsPerSample / 8) * 2 % 2 ^ 32)) with
  | none => exact absurd hal (halloc _)
  | some g =>
    obtain ⟨out, hr, _⟩ := readAudioData_ok env header file dataSize
      (dataSize / (header.bitsPerSample / 8))
      (initBytes g (dataSize / (header.bitsPerSample / 8) * 2 % 2 ^ 32))
    simp only [hr]
    exact ⟨_, rfl⟩

/-- For a stream of at least 36 bytes, a 32-bit field of the header read is the
little-endian value of the stream's bytes at the field's offset. -/
theorem readHeader_le32 (env : Env) (bytes : List Nat) (hlen : 36 ≤ bytes.length)
    (off : Nat) (hoff : off + 3 < 36) :
    le32 (overlay (File.read { bytes := bytes, pos := 0 } 36).1 (initBytes env.headerInit 36)) off
      = le32 bytes off := by
  unfold le32
  rw [readHeader_bytes env bytes hlen off (by omega),
    readHeader_bytes env bytes hlen (off + 1) (by omega),
    readHeader_bytes env bytes hlen (off + 2) (by omega),
    readHeader_bytes env bytes hlen (off + 3) (by omega)]

/-- For a stream of at least 36 bytes, a 16-bit field of the header read is the
little-endian value of the stream's bytes at the field's offset. -/
theorem readHeader_le16 (env : Env) (bytes : List Nat) (hlen : 36 ≤ bytes.length)
    (off : Nat) (hoff : off + 1 < 36) :
    le16 (overlay (File.read { bytes := bytes, pos := 0 } 36).1 (initBytes env.headerInit 36)) off
      = le16 bytes off := by
  unfold le16
  rw [readHeader_bytes env bytes hlen off (by omega),
    readHeader_bytes env bytes hlen (off + 1) (by omega)]

/-- C9: (1) whenever `loadSample` returns true, the slot is marked loaded, its
length `n` is `dataSize / (bitsPerSample / 8)` by integer division (`dataSize`
being the value the chunk scan left), that is `n * bytesPerSample <= dataSize
< (n + 1) * bytesPerSample`, so trailing bytes that do not form a whole sample
are not counted, its buffer has `2 * n` bytes (modulo `2^32`), and its sample
rate is the header's; for a stream of at least 36 bytes the header's bit depth
and sample rate are the stream's fields at offsets 34 and 24, and when a
`data` chunk directly follows a 16-byte format chunk `dataSize` is the size
that chunk declares.  (2) Every such stream of depth 16 or 8 with a non-zero
declared size does load, whether that size is a multiple of the sample width
or not and whatever part of the payload is present, when the slot index is in
range, the card is initialised, the allocators deliver and the fuel is not
zero: the call returns true with length `declared size / (bitsPerSample / 8)`
and the stream's sample rate. -/
theorem loadSample_length :
    (∀ (fuel : Nat) (env : Env) (am am1 : AudioManager) (index : Nat) (filename : List Char),
      loadSample fuel env am index filename = .ok (true, am1) →
      ∃ (hi : index < MAX_SAMPLES) (bytes : List Nat) (file3 : File) (dataSize : Nat),
        openFile env filename = some { bytes := bytes, pos := 0 } ∧
        findDataChunk fuel
            (skipFmtExtra (readHeader env { bytes := bytes, pos := 0 })
              (File.read { bytes := bytes, pos := 0 } 36).2)
            (initBytes env.chunkIdInit 4) 0 = some (file3, dataSize) ∧
        (am1.samples ⟨index, hi⟩).length
          = dataSize / ((readHeader env { bytes := bytes, pos := 0 }).bitsPerSample / 8) ∧
        (am1.samples ⟨index, hi⟩).length
            * ((readHeader env { bytes := bytes, pos := 0 }).bitsPerSample / 8) ≤ dataSize ∧
        dataSize < ((am1.samples ⟨index, hi⟩).length + 1)
            * ((readHeader env { bytes := bytes, pos := 0 }).bitsPerSample / 8) ∧
        (∃ buf, (am1.samples ⟨index, hi⟩).data = some buf ∧
          buf.length = ((am1.samples ⟨index, hi⟩).length * 2) % 2 ^ 32) ∧
        (am1.samples ⟨index, hi⟩).sampleRate
          = (readHeader env { bytes := bytes, pos := 0 }).sampleRate ∧
        (am1.samples ⟨index, hi⟩).loaded = true ∧
        (36 ≤ bytes.length →
          (readHeader env { bytes := bytes, pos := 0 }).bitsPerSample = le16 bytes 34 ∧
          (readHeader env { bytes := bytes, pos := 0 }).sampleRate = le32 bytes 24) ∧
        (44 ≤ bytes.length → le32 bytes 16 ≤ 16 → (bytes.drop 36).take 4 = tagData →
          dataSize = le32 bytes 40)) ∧
    (∀ (fuel : Nat) (env : Env) (am : AudioManager) (index : Nat) (filename : List Char)
        (bytes : List Nat) (hi : index < MAX_SAMPLES),
      am.sdInitialized = true → 0 < fuel →
      openFile env filename = some { bytes := bytes, pos := 0 } →
      44 ≤ bytes.length → bytes.take 4 = tagRIFF → (bytes.drop 8).take 4 = tagWAVE →
      le32 bytes 16 ≤ 16 → (bytes.drop 36).take 4 = tagData → le32 bytes 40 ≠ 0 →
      (le16 bytes 34 = 16 ∨ le16 bytes 34 = 8) →
      (∀ n, (env.psMalloc n).orElse (fun _ => env.malloc n) ≠ none) →
      ∃ am1, loadSample fuel env am index filename = .ok (true, am1) ∧
        (am1.samples ⟨index, hi⟩).length = le32 bytes 40 / (le16 bytes 34 / 8) ∧
        (am1.samples ⟨index, hi⟩).sampleRate = le32 bytes 24 ∧
        (am1.samples ⟨index, hi⟩).loaded = true) := by
  have hscanCanon : ∀ (fuel : Nat) (env : Env) (bytes : List Nat), 0 < fuel →
      44 ≤ bytes.length → le32 bytes 16 ≤ 16 → (bytes.drop 36).take 4 = tagData →
      findDataChunk fuel
          (skipFmtExtra (readHeader env { bytes := bytes, pos := 0 })
            (File.read { bytes := bytes, pos := 0 } 36).2)
          (initBytes env.chunkIdInit 4) 0
        = some ({ bytes := bytes, pos := 44 }, le32 bytes 40) := by
    intro fuel env bytes hfuel hlen hfmt htag
    have hfs : (readHeader env { bytes := bytes, pos := 0 }).fmtSize = le32 bytes 16 :=
      readHeader_le32 env bytes (by omega) 16 (by omega)
    have hp : (File.read { bytes := bytes, pos := 0 } 36).2.pos = 36 := by
      rw [File.read_snd_pos]; simp; omega
    have hskip : skipFmtExtra (readHeader env { bytes := bytes, pos := 0 })
        (File.read { bytes := bytes, pos := 0 } 36).2
        = (File.read { bytes := bytes, pos := 0 } 36).2 := by
      unfold skipFmtExtra
      rw [if_neg (by rw [hfs]; omega)]
    rw [hskip, findDataChunk_data_first fuel _ _ 0 hfuel (by simp [initBytes])
      (by rw [hp, File.read_snd_bytes]; exact hlen)
      (by rw [hp, File.read_snd_bytes]; exact htag), hp, File.read_snd_bytes]
  refine ⟨?_, ?_⟩
  · intro fuel env am am1 index filename h
    unfold loadSample at h
    split at h
    · cases h
    · rename_i hguard
      split at h
      · cases h
      · rename_i file0 hopen
        have hpos := openFile_pos env filename file0 hopen
        obtain ⟨bytes, pos⟩ := file0
        simp only at hpos
        subst hpos
        dsimp only at h
        split at h
        · cases h
        · split at h
          · cases h
          · rename_i file3 dataSize hscan
            split at h
            · cases h
            · obtain ⟨hb, h1, h2, h3, buf, h4, h5⟩ := storeSample_true _ _ _ _ _ _ _ _ h
              refine ⟨Nat.lt_of_not_le (fun hge => hguard (Or.inl hge)), bytes, file3, dataSize,
                hopen, hscan, h1, ?_, ?_, ⟨buf, h4, ?_⟩, h2, h3, ?_, ?_⟩
              · rw [h1]
                exact Nat.div_mul_le_self _ _
              · rw [h1, Nat.mul_comm]
                exact Nat.lt_mul_div_succ _ (Nat.pos_of_ne_zero hb)
              · rw [h1]
                exact h5
              · intro hlen
                exact ⟨readHeader_le16 env bytes hlen 34 (by omega),
                  readHeader_le32 env bytes hlen 24 (by omega)⟩
              · intro hlen hfmt htag
                have hfuel : 0 < fuel := by
                  rcases Nat.eq_zero_or_pos fuel with h0 | h0
                  · subst h0; simp [findDataChunk] at hscan
                  · exact h0
                rw [hscanCanon fuel env bytes hfuel hlen hfmt htag] at hscan
                simp only [Option.some.injEq, Prod.mk.injEq] at hscan
                exact hscan.2.symm
  · intro fuel env am index filename bytes hi hsd hfuel hopen hlen hriff hwave hfmt htag hsize
      hbits halloc
    have hguard : ¬ (index ≥ MAX_SAMPLES ∨ am.sdInitialized = false) := by
      rw [hsd]
      intro hor
      rcases hor with h1 | h1
      · exact absurd hi (Nat.not_lt.mpr h1)
      · cases h1
    obtain ⟨ht1, ht2⟩ := readHeader_tags env bytes (by omega)
    have hb16 : (readHeader env { bytes := bytes, pos := 0 }).bitsPerSample = le16 bytes 34 :=
      readHeader_le16 env bytes (by omega) 34 (by omega)
    have hrate : (readHeader env { bytes := bytes, pos := 0 }).sampleRate = le32 bytes 24 :=
      readHeader_le32 env bytes (by omega) 24 (by omega)
    have hbps : (readHeader env { bytes := bytes, pos := 0 }).bitsPerSample / 8 ≠ 0 := by
      rw [hb16]
      rcases hbits with h16 | h8
      · rw [h16]; decide
      · rw [h8]; decide
    have hcall : loadSample fuel env am index filename
        = storeSample env am ⟨index, hi⟩ filename (readHeader env { bytes := bytes, pos := 0 })
            { bytes := bytes, pos := 44 } (le32 bytes 40) := by
      unfold loadSample
      rw [dif_neg hguard]
      simp only [hopen]
      rw [if_neg (by rw [ht1, ht2, hriff, hwave]; simp),
        hscanCanon fuel env bytes hfuel hlen hfmt htag]
      simp only [if_neg hsize]
    obtain ⟨am1, hstore⟩ := storeSample_loads env am ⟨index, hi⟩ filename
      (readHeader env { bytes := bytes, pos := 0 }) { bytes := bytes, pos := 44 }
      (le32 bytes 40) hbps halloc
    obtain ⟨_, h1, h2, h3, _⟩ := storeSample_true _ _ _ _ _ _ _ _ hstore
    refine ⟨am1, by rw [hcall, hstore], ?_, ?_, h3⟩
    · rw [h1, hb16]
    · rw [h2, hrate]

/-- Witness for C9: a 16-bit mono 22050 Hz stream with a 20-byte data chunk
loads as exactly 10 samples at 22050 Hz; so does the stream with a 21-byte
data chunk and all 21 payload bytes present: 10 samples in a 20-byte buffer,
the trailing byte (20) being written past the end of the buffer and not part
of the sample. -/
theorem loadSample_length_witness :
    (∃ am1, loadSample 4 (cardWith wav16Mono true 0) emptyBank 0 "/1.wav".toList
        = .ok (true, am1) ∧
      (am1.samples slot0).length = 10 ∧ (am1.samples slot0).sampleRate = 22050 ∧
      (am1.samples slot0).loaded = true) ∧
    (∃ am1, loadSample 4 (cardWith wav16Odd true 0) emptyBank 0 "/1.wav".toList
        = .ok (true, am1) ∧
      (am1.samples slot0).length = 21 / (16 / 8) ∧ (am1.samples slot0).length = 10 ∧
      (am1.samples slot0).sampleRate = 22050 ∧ (am1.samples slot0).loaded = true ∧
      (am1.samples slot0).data = some (List.range 20)) ∧
    readAudioOverrun (cardWith wav16Odd true 0)
        (readHeader (cardWith wav16Odd true 0) { bytes := wav16Odd, pos := 0 })
        { bytes := wav16Odd, pos := 44 } 21 10 (initBytes (fun _ => 0) 20) = [20] := by
  have heven : loadSample 4 (cardWith wav16Mono true 0) emptyBank 0 "/1.wav".toList
      = .ok (true,
          { emptyBank with
            samples := Function.update emptyBank.samples slot0
              { data := some (List.range 20), length := 10, sampleRate := 22050, loaded := true,
                name := "1".toList }
            sampleCount := 1 }) := rfl
  have hodd : loadSample 4 (cardWith wav16Odd true 0) emptyBank 0 "/1.wav".toList
      = .ok (true,
          { emptyBank with
            samples := Function.update emptyBank.samples slot0
              { data := some (List.range 20), length := 10, sampleRate := 22050, loaded := true,
                name := "1".toList }
            sampleCount := 1 }) := rfl
  obtain ⟨_, _, _, _, _, _, _, _, _, _, _, hloadedEven, _, _⟩ :=
    loadSample_length.1 4 _ _ _ 0 _ heven
  obtain ⟨am1, hcall, hlen, hrate, hloaded⟩ :=
    loadSample_length.2 4 (cardWith wav16Odd true 0) emptyBank 0 "/1.wav".toList wav16Odd
      (by decide) rfl (by decide) rfl (by decide) rfl rfl (by decide) rfl (by decide)
      (Or.inl rfl) (fun n => by simp [cardWith])
  have ham : am1 = { emptyBank with
      samples := Function.update emptyBank.samples slot0
        { data := some (List.range 20), length := 10, sampleRate := 22050, loaded := true,
          name := "1".toList }
      sampleCount := 1 } := by
    have := hcall.symm.trans hodd
    simp only [Except.ok.injEq, Prod.mk.injEq, true_and] at this
    exact this
  refine ⟨⟨_, heven, rfl, rfl, hloadedEven⟩, ⟨am1, hcall, ?_, ?_, ?_, hloaded, ?_⟩, rfl⟩
  · rw [ham]; rfl
  · rw [ham]; rfl
  · rw [ham]; rfl
  · rw [ham]; rfl

/-- C7 (the code at the failing input): for a valid 16-bit file that ends
after a `LIST` chunk of declared size 4, the chunk scan reaches the end of the
stream without meeting a `data` chunk and leaves `dataSize = 4`; `loadSample`
then returns true and marks slot 0 loaded with two samples, whose bytes are
whatever the allocator handed out (here 7, 7: the sample value 1799). -/
theorem loadSample_accepts_missing_data_chunk :
    findDataChunk 4 { bytes := wavNoData, pos := 36 } (initBytes (fun _ => 7) 4) 0
        = some ({ bytes := wavNoData, pos := 48 }, 4) ∧
      File.available { bytes := wavNoData, pos := 48 } = 0 ∧
      slot0Report (loadSample 4 (cardWith wavNoData true 7) emptyBank 0 "/1.wav".toList)
        = .ok (true, true, 2, 22050, true, [1799, 1799]) :=
  ⟨rfl, rfl, rfl⟩

/-- C10 (the code at the failing input): for a valid file whose header
declares 24 bits per sample and whose data chunk holds 6 bytes, `loadSample`
returns true and marks slot 0 loaded with `6 / 3 = 2` samples; no payload byte is
read into the buffer, which holds what the allocator handed out (here 7, 7:
the sample value 1799). -/
theorem loadSample_accepts_24_bit :
    (readHeader (cardWith wav24Mono true 7) { bytes := wav24Mono, pos := 0 }).bitsPerSample = 24 ∧
      slot0Report (loadSample 4 (cardWith wav24Mono true 7) emptyBank 0 "/1.wav".toList)
        = .ok (true, true, 2, 22050, true, [1799, 1799]) :=
  ⟨rfl, rfl⟩

/-! ## 8-bit conversion -/

/-- The conversion loop writes two bytes per sample. -/
theorem cells_length (f : Nat → Int) (n : Nat) :
    (((List.range n).map (fun k => bytesOf16 (f k))).flatten).length = 2 * n := by
  induction n with
  | zero => rfl
  | succ m ihm =>
    rw [List.range_succ, List.map_append, List.flatten_append, List.length_append, ihm]
    simp [bytesOf16]
    omega

/-- The bytes written by the conversion loop: cell `i` holds the two bytes of
`f i`. -/
theorem cells_getD (f : Nat → Int) (n i : Nat) (hi : i < n) :
    (((List.range n).map (fun k => bytesOf16 (f k))).flatten).getD (2 * i) 0
        = (bytesOf16 (f i)).getD 0 0 ∧
      (((List.range n).map (fun k => bytesOf16 (f k))).flatten).getD (2 * i + 1) 0
        = (bytesOf16 (f i)).getD 1 0 := by
  induction n with
  | zero => omega
  | succ n ih =>
    have hlen := cells_length f n
    rw [List.range_succ, List.map_append, List.flatten_append]
    rcases Nat.lt_succ_iff_lt_or_eq.mp hi with hlt | heq
    · obtain ⟨ih1, ih2⟩ := ih hlt
      rw [List.getD_append _ _ _ _ (by omega), List.getD_append _ _ _ _ (by omega)]
      exact ⟨ih1, ih2⟩
    · subst heq
      constructor
      · rw [List.getD_append_right _ _ _ _ (by omega), hlen]
        simp [bytesOf16]
      · rw [List.getD_append_right _ _ _ _ (by omega), hlen]
        simp [bytesOf16]

/-- An `int16_t` written to a cell and read back is the same value. -/
theorem toInt16_le16_bytesOf16 (x : Int) (hlo : -32768 ≤ x) (hhi : x ≤ 32767) :
    toInt16 ((((bytesOf16 x).getD 0 0 % 256 + 256 * ((bytesOf16 x).getD 1 0 % 256) : Nat)) : Int)
      = x := by
  unfold bytesOf16 toInt16
  simp only [List.getD_cons_zero, List.getD_cons_succ]
  have h0 : 0 ≤ x % 65536 := Int.emod_nonneg _ (by norm_num)
  have h1 : x % 65536 < 65536 := Int.emod_lt_of_pos _ (by norm_num)
  have hcast : (((x % 65536).toNat : Nat) : Int) = x % 65536 := Int.toNat_of_nonneg h0
  have hu : (x % 65536).toNat < 65536 := by omega
  have hrec : (x % 65536).toNat % 256 % 256 + 256 * ((x % 65536).toNat / 256 % 256)
      = (x % 65536).toNat := by omega
  rw [hrec, hcast]
  omega

/-- The conversion of a byte is the centred value times 256. -/
theorem decode8_eq (b : Nat) (hb : b < 256) : decode8 b = ((b : Int) - 128) * 256 := by
  unfold decode8 toInt16
  have hs : ((b : Int) - 128) <<< (8 : Int) = ((b : Int) - 128) * 256 := by
    have := Int.shiftLeft_eq_mul_pow ((b : Int) - 128) 8
    simpa using this
  rw [hs]
  omega

/-- C8: in the 8-bit path every payload byte `b` in 0..255 is decoded to the
16-bit sample `(b - 128) << 8 = (b - 128) * 256`, which lies in
`[-32768, 32512]`; the bytes 0, 128, 255 give -32768, 0, 32512; and the sample
that the conversion loop of `loadSample` stores in cell `i` for payload byte
`b` at index `i` reads back as that value. -/
theorem decode8_spec (b : Nat) (hb : b < 256) :
    decode8 b = ((b : Int) - 128) * 256 ∧ -32768 ≤ decode8 b ∧ decode8 b ≤ 32512 ∧
      decode8 0 = -32768 ∧ decode8 128 = 0 ∧ decode8 255 = 32512 ∧
      ∀ (env : Env) (header : WavHeader) (file : File) (dataSize numSamples : Nat)
        (buf : List Nat) (g : Nat → Nat) (i : Nat),
        header.bitsPerSample = 8 → env.mallocTemp dataSize = some g →
        2 * numSamples ≤ buf.length → i < numSamples →
        i < ((file.read dataSize).1).length → ((file.read dataSize).1).getD i 0 = b →
        ∃ out, readAudioData env header file dataSize numSamples buf = .ok out ∧
          sampleAt out i = decode8 b := by
  have heq := decode8_eq b hb
  refine ⟨heq, by rw [heq]; omega, by rw [heq]; omega, by decide, by decide, by decide, ?_⟩
  intro env header file dataSize numSamples buf g i h8 hm hbuf hi higot hbyte
  refine ⟨overlay (((List.range numSamples).map (fun k => bytesOf16 (decode8
    ((overlay (file.read dataSize).1 (initBytes g dataSize)).getD k 0)))).flatten) buf, ?_, ?_⟩
  · have hfit := cells_length
      (fun k => decode8
        ((overlay (file.read dataSize).1 (initBytes g dataSize)).getD k 0)) numSamples
    unfold readAudioData
    rw [if_neg (by rw [h8]; decide), if_pos h8]
    simp only [hm]
    rw [List.take_of_length_le (le_of_eq_of_le hfit hbuf)]
  · have hcl := cells_length
      (fun k => decode8
        ((overlay (file.read dataSize).1 (initBytes g dataSize)).getD k 0)) numSamples
    obtain ⟨hc0, hc1⟩ := cells_getD
      (fun k => decode8
        ((overlay (file.read dataSize).1 (initBytes g dataSize)).getD k 0)) numSamples i hi
    unfold sampleAt le16
    rw [overlay_getD _ _ _ _ (by omega), overlay_getD _ _ _ _ (by omega), hc0, hc1]
    simp only [overlay_getD _ _ _ _ higot, hbyte]
    exact toInt16_le16_bytesOf16 (decode8 b) (by rw [heq]; omega) (by rw [heq]; omega)

/-- Witness for C8: the payload byte 255 at index 2 of the 8-bit file is stored
in cell 2 as 32512. -/
theorem decode8_spec_witness :
    255 < 256 ∧ decode8 255 = 32512 ∧
      slot0Report (loadSample 4 (cardWith wav8Mono true 0) emptyBank 0 "/1.wav".toList)
        = .ok (true, true, 3, 22050, true, [-32768, 0, 32512]) :=
  ⟨by decide, (decode8_spec 255 (by decide)).2.2.2.2.2.1, rfl⟩

/-! ## Relative tempo and length changes -/

/-- C12 (the code at the failing input): at 60 bpm, `adjustBPM(-100)` leaves
the tempo at 240 bpm with a 62 ms interval, not at 60: the `int` sum -40 is
converted to the `uint16_t` parameter of `setBPM` as 65496 before it is
clamped.  The same happens for every negative sum; a sum that is not negative
is clamped to `[60, 240]`. -/
theorem adjustBPM_negative_sum :
    (seqSlowShort.adjustBPM (-100)).map (fun t => (t.playback.bpm, t.playback.stepIntervalMs))
        = some (240, 62) ∧
      (∀ (s : Sequencer) (d : Int), 60 ≤ s.playback.bpm → s.playback.bpm ≤ 240 →
        -32768 ≤ d → d ≤ 32767 → (s.playback.bpm : Int) + d < 0 →
        (s.adjustBPM d).map (fun t => (t.playback.bpm, t.playback.stepIntervalMs))
          = some (240, 62)) ∧
      (∀ (s : Sequencer) (d : Int), 60 ≤ s.playback.bpm → s.playback.bpm ≤ 240 →
        -32768 ≤ d → d ≤ 32767 → 0 ≤ (s.playback.bpm : Int) + d →
        (s.adjustBPM d).map (fun t => ((t.playback.bpm : Int), t.playback.stepIntervalMs))
          = some (max 60 (min ((s.playback.bpm : Int) + d) 240),
              15000 / (max 60 (min ((s.playback.bpm : Int) + d) 240)).toNat)) := by
  refine ⟨by decide, ?_, ?_⟩
  · intro s d h1 h2 h3 h4 h5
    have hv : ((((s.playback.bpm : Int) + d) % 65536).toNat) > 240 := by omega
    have hclamp : (if (if ((((s.playback.bpm : Int) + d) % 65536).toNat) < MIN_BPM then MIN_BPM
        else ((((s.playback.bpm : Int) + d) % 65536).toNat)) > MAX_BPM then MAX_BPM
        else (if ((((s.playback.bpm : Int) + d) % 65536).toNat) < MIN_BPM then MIN_BPM
        else ((((s.playback.bpm : Int) + d) % 65536).toNat))) = 240 := by
      unfold MIN_BPM MAX_BPM; split_ifs <;> omega
    simp only [Sequencer.adjustBPM, Sequencer.setBPM, hclamp, PlaybackState.updateInterval]
    simp
  · intro s d h1 h2 h3 h4 h5
    have hclamp : (if (if ((((s.playback.bpm : Int) + d) % 65536).toNat) < MIN_BPM then MIN_BPM
        else ((((s.playback.bpm : Int) + d) % 65536).toNat)) > MAX_BPM then MAX_BPM
        else (if ((((s.playback.bpm : Int) + d) % 65536).toNat) < MIN_BPM then MIN_BPM
        else ((((s.playback.bpm : Int) + d) % 65536).toNat)))
        = (max 60 (min ((s.playback.bpm : Int) + d) 240)).toNat := by
      unfold MIN_BPM MAX_BPM; split_ifs <;> omega
    have hne : (max 60 (min ((s.playback.bpm : Int) + d) 240)).toNat ≠ 0 := by omega
    have hlt : 15000 / (max 60 (min ((s.playback.bpm : Int) + d) 240)).toNat < 2 ^ 32 :=
      lt_of_le_of_lt (Nat.div_le_self _ _) (by norm_num)
    have hcast : (((max 60 (min ((s.playback.bpm : Int) + d) 240)).toNat : Nat) : Int)
        = max 60 (min ((s.playback.bpm : Int) + d) 240) := by omega
    simp only [Sequencer.adjustBPM, Sequencer.setBPM, hclamp, PlaybackState.updateInterval,
      if_neg hne, Option.map_some', Nat.mod_eq_of_lt hlt, hcast]

/-- C13 (the code at the failing input): with a three-step pattern,
`adjustPatternLength(-5)` leaves the length at 8, not at 1: the `int` sum -2 is
converted to the `uint8_t` parameter of `setPatternLength` as 254 before it is
clamped.  The same happens for every negative sum; a sum that is not negative
is clamped to `[1, 8]`. -/
theorem adjustPatternLength_negative_sum :
    (seqSlowShort.adjustPatternLength (-5)).playback.patternLength = 8 ∧
      (∀ (s : Sequencer) (d : Int), 1 ≤ s.playback.patternLength →
        s.playback.patternLength ≤ 8 → -128 ≤ d → d ≤ 127 →
        (s.playback.patternLength : Int) + d < 0 →
        (s.adjustPatternLength d).playback.patternLength = 8) ∧
      (∀ (s : Sequencer) (d : Int), 1 ≤ s.playback.patternLength →
        s.playback.patternLength ≤ 8 → -128 ≤ d → d ≤ 127 →
        0 ≤ (s.playback.patternLength : Int) + d →
        ((s.adjustPatternLength d).playback.patternLength : Int)
          = max 1 (min ((s.playback.patternLength : Int) + d) 8)) := by
  have hlen : ∀ (s : Sequencer) (v : Nat),
      (s.setPatternLength v).playback.patternLength = max 1 (min v 8) := by
    intro s v
    have hclamp : (if (if v < MIN_STEPS then MIN_STEPS else v) > MAX_STEPS then MAX_STEPS
        else (if v < MIN_STEPS then MIN_STEPS else v)) = max 1 (min v 8) := by
      unfold MIN_STEPS MAX_STEPS; split_ifs <;> omega
    unfold Sequencer.setPatternLength
    simp only [hclamp]
    split_ifs <;> rfl
  refine ⟨by decide, ?_, ?_⟩
  · intro s d h1 h2 h3 h4 h5
    unfold Sequencer.adjustPatternLength
    rw [hlen]
    omega
  · intro s d h1 h2 h3 h4 h5
    unfold Sequencer.adjustPatternLength
    rw [hlen]
    omega

/-! ## Pattern store -/

/-- Reading a step is testing the bit of the instrument's byte. -/
theorem getStep_eq_testBit (p : Pattern) (j : Fin NUM_INSTRUMENTS) (t : Nat) :
    p.getStep j t = (p.steps j).testBit t := by
  unfold Pattern.getStep Nat.testBit
  rw [Nat.land_comm]

/-- A byte has no bit set at position 8 or above. -/
theorem byte_testBit_high (x t : Nat) (hx : x < 256) (ht : 8 ≤ t) : x.testBit t = false := by
  apply Nat.testBit_lt_two_pow
  calc x < 2 ^ 8 := hx
    _ ≤ 2 ^ t := Nat.pow_le_pow_right (by norm_num) ht

/-- The low byte of `~(1 << s)` has every bit below 8 set except bit `s`. -/
theorem clearMask_testBit (s t : Nat) (hs : s < 8) :
    (255 - (1 <<< s) % 256).testBit t = (decide (t < 8) && !decide (s = t)) := by
  have hm : 255 - (1 <<< s) % 256 = (2 ^ 8 - 1) ^^^ 2 ^ s := by
    interval_cases s <;> rfl
  rw [hm, Nat.testBit_xor, Nat.testBit_two_pow_sub_one, Nat.testBit_two_pow]
  by_cases h1 : t < 8 <;> by_cases h2 : s = t <;> first | omega | simp [h1, h2]

/-- The bits of the byte stored by `setStep`. -/
theorem setStep_byte_testBit (x s t : Nat) (v : Bool) (hx : x < 256) (hs : s < 8) :
    (if v then (x ||| (1 <<< s)) % 256 else (x &&& (255 - (1 <<< s) % 256)) % 256).testBit t
      = if s = t then v else x.testBit t := by
  have hhigh : 8 ≤ t → x.testBit t = false := byte_testBit_high x t hx
  cases v
  · simp only [Bool.false_eq_true, if_false]
    rw [show (256 : Nat) = 2 ^ 8 from rfl, Nat.testBit_mod_two_pow, Nat.testBit_and,
      ← show (256 : Nat) = 2 ^ 8 from rfl, clearMask_testBit s t hs]
    by_cases h1 : t < 8 <;> by_cases h2 : s = t
    · simp [h1, h2]
    · simp [h1, h2]
    · omega
    · simp [h1, h2, hhigh (by omega)]
  · simp only [if_true]
    rw [show (256 : Nat) = 2 ^ 8 from rfl, Nat.testBit_mod_two_pow, Nat.testBit_or,
      Nat.one_shiftLeft, Nat.testBit_two_pow]
    by_cases h1 : t < 8 <;> by_cases h2 : s = t
    · simp [h1, h2]
    · simp [h1, h2]
    · omega
    · simp [h1, h2, hhigh (by omega)]

/-- The bits of the byte stored by `toggleStep`. -/
theorem toggleStep_byte_testBit (x s t : Nat) (hx : x < 256) (hs : s < 8) :
    ((x ^^^ (1 <<< s)) % 256).testBit t = if s = t then !x.testBit t else x.testBit t := by
  have hhigh : 8 ≤ t → x.testBit t = false := byte_testBit_high x t hx
  rw [show (256 : Nat) = 2 ^ 8 from rfl, Nat.testBit_mod_two_pow, Nat.testBit_xor,
    Nat.one_shiftLeft, Nat.testBit_two_pow]
  by_cases h1 : t < 8 <;> by_cases h2 : s = t
  · simp [h1, h2]
  · simp [h1, h2]
  · omega
  · simp [h1, h2, hhigh (by omega)]

/-- The bytes of the pattern after `setStep`. -/
theorem setStep_steps (p : Pattern) (i : Fin NUM_INSTRUMENTS) (s : Nat) (v : Bool) :
    (p.setStep i s v).steps = Function.update p.steps i
      (if v then (p.steps i ||| (1 <<< s)) % 256
        else (p.steps i &&& (255 - (1 <<< s) % 256)) % 256) := by
  cases v <;> rfl

/-- C14: for every pattern (of bytes), instrument `i`, step `s < 8` and boolean
`v`: after `setStep(i, s, v)`, `getStep(i, s)` is `v` and every other cell is
unchanged; `toggleStep(i, s)` inverts `getStep(i, s)`, leaves every other cell
unchanged, and applied twice gives back the original pattern. -/
theorem pattern_round_trip (p : Pattern) (i : Fin NUM_INSTRUMENTS) (s : Nat) (v : Bool)
    (hp : ∀ j, p.steps j < 256) (hs : s < 8) :
    (p.setStep i s v).getStep i s = v ∧
      (∀ j t, (j, t) ≠ (i, s) → (p.setStep i s v).getStep j t = p.getStep j t) ∧
      (p.toggleStep i s).getStep i s = (!p.getStep i s) ∧
      (∀ j t, (j, t) ≠ (i, s) → (p.toggleStep i s).getStep j t = p.getStep j t) ∧
      (p.toggleStep i s).toggleStep i s = p := by
  refine ⟨?_, ?_, ?_, ?_, ?_⟩
  · rw [getStep_eq_testBit, setStep_steps, Function.update_same,
      setStep_byte_testBit _ _ _ _ (hp i) hs, if_pos rfl]
  · intro j t hne
    rw [getStep_eq_testBit, getStep_eq_testBit, setStep_steps]
    by_cases hj : j = i
    · subst hj
      have hst : s ≠ t := fun h => hne (by rw [h])
      rw [Function.update_same, setStep_byte_testBit _ _ _ _ (hp j) hs, if_neg hst]
    · rw [Function.update_noteq hj]
  · rw [getStep_eq_testBit, getStep_eq_testBit]
    simp only [Pattern.toggleStep, Function.update_same]
    rw [toggleStep_byte_testBit _ _ _ (hp i) hs, if_pos rfl]
  · intro j t hne
    rw [getStep_eq_testBit, getStep_eq_testBit]
    simp only [Pattern.toggleStep]
    by_cases hj : j = i
    · subst hj
      have hst : s ≠ t := fun h => hne (by rw [h])
      rw [Function.update_same, toggleStep_byte_testBit _ _ _ (hp j) hs, if_neg hst]
    · rw [Function.update_noteq hj]
  · have hbyte : ((p.steps i ^^^ (1 <<< s)) % 256 ^^^ (1 <<< s)) % 256 = p.steps i := by
      apply Nat.eq_of_testBit_eq
      intro t
      rw [toggleStep_byte_testBit _ _ _ (Nat.mod_lt _ (by norm_num)) hs,
        toggleStep_byte_testBit _ _ _ (hp i) hs]
      by_cases h : s = t <;> simp [h]
    cases p with
    | mk steps =>
      simp only [Pattern.toggleStep, Function.update_same, Function.update_idem] at hbyte ⊢
      rw [hbyte, Function.update_eq_self]

/-- Witness for C14: switching on step 3 of instrument 1 in the empty pattern. -/
theorem pattern_round_trip_witness :
    (∀ j, seqInitial.pattern.steps j < 256) ∧ 3 < 8 ∧
      (seqInitial.pattern.setStep ⟨1, by decide⟩ 3 true).getStep ⟨1, by decide⟩ 3 = true ∧
      ((seqInitial.pattern.toggleStep ⟨1, by decide⟩ 3).toggleStep ⟨1, by decide⟩ 3)
        = seqInitial.pattern :=
  have h := pattern_round_trip seqInitial.pattern ⟨1, by decide⟩ 3 true
    (fun _ => (by decide : (0 : Nat) < 256)) (by decide)
  ⟨fun _ => (by decide : (0 : Nat) < 256), by decide, h.1, h.2.2.2.2⟩

/-! ## Playback dispatch -/

/-- With a pattern length of at least 1, `update` has a result. -/
theorem update_some (s : Sequencer) (now : Nat) (hlen : 1 ≤ s.playback.patternLength) :
    ∃ r, s.update now = some r := by
  have hne : s.playback.patternLength ≠ 0 := by omega
  unfold Sequencer.update
  split_ifs
  · exact ⟨_, rfl⟩
  · exact ⟨_, rfl⟩
  · exact ⟨_, rfl⟩

/-- While stopped, `update` returns false and changes nothing. -/
theorem update_stopped (s : Sequencer) (now : Nat) (hp : s.playback.isPlaying = false) :
    s.update now = some (false, s) := by
  simp [Sequencer.update, hp]

/-- The calls made for a step: one per instrument whose bit is set, for slot
and channel equal to the instrument's index, in increasing order. -/
theorem triggerStep_spec (p : Pattern) (step : Nat) :
    (∀ c, c ∈ triggerStep p step ↔
        ∃ i : Fin NUM_INSTRUMENTS, p.getStep i step = true ∧ c = { slot := i.val, channel := i.val }) ∧
      (triggerStep p step).Pairwise (fun a b => a.channel < b.channel) := by
  constructor
  · intro c
    unfold triggerStep
    rw [List.mem_filterMap]
    constructor
    · rintro ⟨i, _, hi⟩
      by_cases hg : p.getStep i step = true
      · rw [if_pos hg] at hi
        exact ⟨i, hg, (Option.some.inj hi).symm⟩
      · rw [if_neg hg] at hi
        cases hi
    · rintro ⟨i, hg, rfl⟩
      exact ⟨i, List.mem_finRange i, by rw [if_pos hg]⟩
  · unfold triggerStep
    refine List.Pairwise.filterMap _ ?_ (List.pairwise_lt_finRange NUM_INSTRUMENTS)
    intro a a1 hlt b hb b1 hb1
    by_cases hga : p.getStep a step = true
    · by_cases hgb : p.getStep a1 step = true
      · rw [if_pos hga] at hb
        rw [if_pos hgb] at hb1
        cases hb
        cases hb1
        exact hlt
      · rw [if_neg hgb] at hb1
        cases hb1
    · rw [if_neg hga] at hb
      cases hb

/-- A call `playSample(i, i)` for an instrument `i` plays slot `i` on channel
`i` when the slot is loaded and nothing otherwise. -/
theorem playSample_instrument (am : AudioManager) (i : Fin NUM_INSTRUMENTS) :
    am.playSample i.val i.val =
      if (am.samples ⟨i.val, Nat.lt_trans i.isLt (by decide)⟩).loaded = true then
        some { data := (am.samples ⟨i.val, Nat.lt_trans i.isLt (by decide)⟩).data
               length := (am.samples ⟨i.val, Nat.lt_trans i.isLt (by decide)⟩).length
               sampleRate := (am.samples ⟨i.val, Nat.lt_trans i.isLt (by decide)⟩).sampleRate
               channel := i.val }
      else none := by
  have hlt : i.val < MAX_SAMPLES := Nat.lt_trans i.isLt (by decide)
  have h4 : i.val % 4 = i.val := Nat.mod_eq_of_lt i.isLt
  unfold AudioManager.playSample
  rw [dif_pos hlt, h4]

/-- C11 (amended): a run of the dispatch block yields the result of `update`
(no call of `update` and no change while stopped); when the step did not
change no call to `playSample` is made; when it changed, a call is made for
exactly the instruments `i` whose bit of the new `currentStep` is set, in
increasing instrument order, each for sample slot `i` on channel `i`. -/
theorem dispatch_triggers (s : Sequencer) (now : Nat) (hlen : 1 ≤ s.playback.patternLength) :
    ∃ s1 changed calls, dispatch s now = some (s1, changed, calls) ∧
      s.update now = some (changed, s1) ∧
      (changed = false → calls = []) ∧
      (changed = true →
        (∀ c, c ∈ calls ↔
          ∃ i : Fin NUM_INSTRUMENTS, s1.pattern.getStep i s1.playback.currentStep = true ∧
            c = { slot := i.val, channel := i.val }) ∧
        calls.Pairwise (fun a b => a.channel < b.channel)) := by
  cases hp : s.playback.isPlaying
  · refine ⟨s, false, [], ?_, update_stopped s now hp, fun _ => rfl, ?_⟩
    · simp [dispatch, hp]
    · intro h; cases h
  · obtain ⟨⟨changed, s1⟩, hup⟩ := update_some s now hlen
    cases changed
    · refine ⟨s1, false, [], ?_, hup, fun _ => rfl, ?_⟩
      · simp [dispatch, hp, hup]
      · intro h; cases h
    · refine ⟨s1, true, triggerStep s1.pattern s1.playback.currentStep, ?_, hup, ?_, ?_⟩
      · simp [dispatch, hp, hup]
      · intro h; cases h
      · intro _
        exact triggerStep_spec s1.pattern s1.playback.currentStep

/-- Witness for C11 (amended): the dispatch block run on `seqRemapped` at time
200 advances to step 0 and calls `playSample(0, 0)` and `playSample(2, 2)`. -/
theorem dispatch_triggers_witness :
    1 ≤ seqRemapped.playback.patternLength ∧
      dispatch seqRemapped 200
        = some ({ seqRemapped with
                    playback :=
                      { seqRemapped.playback with currentStep := 0, lastStepTimeMs := 200 } },
            true, [{ slot := 0, channel := 0 }, { slot := 2, channel := 2 }]) ∧
      ∃ s1 changed calls, dispatch seqRemapped 200 = some (s1, changed, calls) ∧
        seqRemapped.update 200 = some (changed, s1) ∧
        (changed = false → calls = []) ∧
        (changed = true →
          (∀ c, c ∈ calls ↔
            ∃ i : Fin NUM_INSTRUMENTS, s1.pattern.getStep i s1.playback.currentStep = true ∧
              c = { slot := i.val, channel := i.val }) ∧
          calls.Pairwise (fun a b => a.channel < b.channel)) :=
  ⟨by decide, rfl, dispatch_triggers seqRemapped 200 (by decide)⟩

/-- C11 (as stated) fails: after `setTrackSample(0, 5)` the dispatch block still
calls `playSample(0, 0)` for instrument 0, not `playSample(5, 0)`; the calls are
not those for the slots `getTrackSample(i)`. -/
theorem dispatch_ignores_track_assignment :
    ¬ (∀ (s s1 : Sequencer) (now : Nat) (calls : List Trigger),
        dispatch s now = some (s1, true, calls) →
          calls = ((List.finRange NUM_INSTRUMENTS).filter
              (fun i => s1.pattern.getStep i s1.playback.currentStep)).map
            (fun i => { slot := s1.getTrackSample i.val, channel := i.val })) := by
  intro hall
  have h := hall seqRemapped
    { seqRemapped with
      playback := { seqRemapped.playback with currentStep := 0, lastStepTimeMs := 200 } }
    200 [{ slot := 0, channel := 0 }, { slot := 2, channel := 2 }] rfl
  revert h
  decide

/-! ## Invariant of the reachable states -/

/-- The result of `setBPM`, for every argument. -/
theorem setBPM_result (s : Sequencer) (v : Nat) :
    s.setBPM v =
      some { s with
        playback :=
          { s.playback with
            bpm := max 60 (min v 240)
            stepIntervalMs := 15000 / max 60 (min v 240) } } := by
  have hne : (if (if v < MIN_BPM then MIN_BPM else v) > MAX_BPM then MAX_BPM
      else (if v < MIN_BPM then MIN_BPM else v)) ≠ 0 := by
    unfold MIN_BPM MAX_BPM; split_ifs <;> omega
  have hclamp : (if (if v < MIN_BPM then MIN_BPM else v) > MAX_BPM then MAX_BPM
      else (if v < MIN_BPM then MIN_BPM else v)) = max 60 (min v 240) := by
    unfold MIN_BPM MAX_BPM; split_ifs <;> omega
  have hlt : 15000 / max 60 (min v 240) < 2 ^ 32 :=
    lt_of_le_of_lt (Nat.div_le_self _ _) (by norm_num)
  simp only [Sequencer.setBPM, PlaybackState.updateInterval, if_neg hne]
  simp only [hclamp, Nat.mod_eq_of_lt hlt]

/-- `init` has a result, which satisfies the invariant. -/
theorem init_inv (s0 : Sequencer) : ∃ s, s0.init = some s ∧ s.Inv := by
  have hres : s0.init =
      some { pattern := s0.pattern.clear
             playback :=
               { s0.playback with
                 isPlaying := false, currentStep := 0, patternLength := 8, bpm := 120,
                 stepIntervalMs := 125 }
             cursor := { row := 0, col := 0 }
             trackSamples := fun i => i.val } := by
    have hne : DEFAULT_BPM ≠ 0 := by decide
    have hval : 15000 / DEFAULT_BPM % 2 ^ 32 = 125 := by norm_num [DEFAULT_BPM]
    simp only [Sequencer.init, PlaybackState.updateInterval, if_neg hne, hval]
    rfl
  refine ⟨_, hres, ?_⟩
  unfold Sequencer.Inv
  refine ⟨?_, ?_, ?_, ?_, ?_, ?_, ?_, ?_⟩ <;> norm_num

/-- `setBPM` keeps the invariant. -/
theorem setBPM_inv (s : Sequencer) (v : Nat) (h : s.Inv) :
    ∃ s1, s.setBPM v = some s1 ∧ s1.Inv := by
  refine ⟨_, setBPM_result s v, ?_⟩
  obtain ⟨h1, h2, h3, h4, h5, h6, h7, h8⟩ := h
  refine ⟨h1, h2, h3, ?_, ?_, rfl, h7, h8⟩
  · exact le_max_left _ _
  · exact max_le (by norm_num) (min_le_right _ _)

/-- `setPatternLength` keeps the invariant. -/
theorem setPatternLength_inv (s : Sequencer) (v : Nat) (h : s.Inv) :
    (s.setPatternLength v).Inv := by
  obtain ⟨h1, h2, h3, h4, h5, h6, h7, h8⟩ := h
  have hclamp : (if (if v < MIN_STEPS then MIN_STEPS else v) > MAX_STEPS then MAX_STEPS
      else (if v < MIN_STEPS then MIN_STEPS else v)) = max 1 (min v 8) := by
    unfold MIN_STEPS MAX_STEPS; split_ifs <;> omega
  have hlo : 1 ≤ max 1 (min v 8) := le_max_left _ _
  have hhi : max 1 (min v 8) ≤ 8 := max_le (by norm_num) (min_le_right _ _)
  have hcol : (s.cursor.clampToLength (max 1 (min v 8))).col < max 1 (min v 8) := by
    unfold Cursor.clampToLength
    split_ifs with hc
    · simp only
      omega
    · omega
  have hrow : (s.cursor.clampToLength (max 1 (min v 8))).row = s.cursor.row := by
    unfold Cursor.clampToLength
    split_ifs <;> rfl
  unfold Sequencer.setPatternLength
  simp only [hclamp]
  split_ifs with hc
  · exact ⟨hlo, hlo, hhi, h4, h5, h6, by rw [hrow]; exact h7, hcol⟩
  · exact ⟨Nat.lt_of_not_le hc, hlo, hhi, h4, h5, h6, by rw [hrow]; exact h7, hcol⟩

/-- `update` keeps the invariant. -/
theorem update_inv (s : Sequencer) (now : Nat) (h : s.Inv) :
    ∃ r, s.update now = some r ∧ r.2.Inv := by
  obtain ⟨h1, h2, h3, h4, h5, h6, h7, h8⟩ := h
  have hne : s.playback.patternLength ≠ 0 := by omega
  have hm := Nat.mod_lt (s.playback.currentStep + 1) h2
  unfold Sequencer.update
  split_ifs
  · exact ⟨_, rfl, h1, h2, h3, h4, h5, h6, h7, h8⟩
  · refine ⟨_, rfl, ?_, h2, h3, h4, h5, h6, h7, h8⟩
    simp only
    omega
  · exact ⟨_, rfl, h1, h2, h3, h4, h5, h6, h7, h8⟩

/-- Every operation has a result and keeps the invariant. -/
theorem exec_inv (s : Sequencer) (c : Command) (h : s.Inv) :
    ∃ s1, s.exec c = some s1 ∧ s1.Inv := by
  cases c with
  | update now =>
    obtain ⟨r, hr, hinv⟩ := update_inv s now h
    exact ⟨r.2, by simp [Sequencer.exec, hr], hinv⟩
  | togglePlay millis =>
    refine ⟨_, rfl, ?_⟩
    obtain ⟨h1, h2, h3, h4, h5, h6, h7, h8⟩ := h
    unfold Sequencer.togglePlay
    cases hp : s.playback.isPlaying
    · exact ⟨h2, h2, h3, h4, h5, h6, h7, h8⟩
    · exact ⟨h1, h2, h3, h4, h5, h6, h7, h8⟩
  | stop =>
    obtain ⟨h1, h2, h3, h4, h5, h6, h7, h8⟩ := h
    exact ⟨_, rfl, h2, h2, h3, h4, h5, h6, h7, h8⟩
  | setBPM v => exact setBPM_inv s v h
  | adjustBPM d => exact setBPM_inv s _ h
  | setPatternLength v => exact ⟨_, rfl, setPatternLength_inv s v h⟩
  | adjustPatternLength d => exact ⟨_, rfl, setPatternLength_inv s _ h⟩
  | setStep i step v => exact ⟨_, rfl, h⟩
  | toggleStep i step => exact ⟨_, rfl, h⟩
  | clear => exact ⟨_, rfl, h⟩
  | moveUp =>
    refine ⟨_, rfl, ?_⟩
    obtain ⟨h1, h2, h3, h4, h5, h6, h7, h8⟩ := h
    refine ⟨h1, h2, h3, h4, h5, h6, ?_, ?_⟩
    · simp only [Cursor.moveUp]
      split_ifs
      · simp only
        omega
      · exact h7
    · simp only [Cursor.moveUp]
      split_ifs <;> exact h8
  | moveDown =>
    refine ⟨_, rfl, ?_⟩
    obtain ⟨h1, h2, h3, h4, h5, h6, h7, h8⟩ := h
    refine ⟨h1, h2, h3, h4, h5, h6, ?_, ?_⟩
    · simp only [Cursor.moveDown, NUM_INSTRUMENTS]
      split_ifs with hc
      · simp only
        omega
      · exact h7
    · simp only [Cursor.moveDown]
      split_ifs <;> exact h8
  | moveLeft =>
    refine ⟨_, rfl, ?_⟩
    obtain ⟨h1, h2, h3, h4, h5, h6, h7, h8⟩ := h
    refine ⟨h1, h2, h3, h4, h5, h6, ?_, ?_⟩
    · simp only [Cursor.moveLeft]
      split_ifs <;> exact h7
    · simp only [Cursor.moveLeft]
      split_ifs
      · simp only
        omega
      · exact h8
  | moveRight =>
    refine ⟨_, rfl, ?_⟩
    obtain ⟨h1, h2, h3, h4, h5, h6, h7, h8⟩ := h
    refine ⟨h1, h2, h3, h4, h5, h6, ?_, ?_⟩
    · simp only [Cursor.moveRight]
      split_ifs <;> exact h7
    · simp only [Cursor.moveRight]
      split_ifs with hc
      · simp only
        omega
      · exact h8

/-- A sequence of operations from a state satisfying the invariant has a
result, which satisfies the invariant. -/
theorem run_inv (cmds : List Command) : ∀ (s : Sequencer), s.Inv →
    ∃ s1, s.run cmds = some s1 ∧ s1.Inv := by
  induction cmds with
  | nil => intro s h; exact ⟨s, rfl, h⟩
  | cons c cs ih =>
    intro s h
    obtain ⟨s1, h1, hinv1⟩ := exec_inv s c h
    obtain ⟨s2, h2, hinv2⟩ := ih s1 hinv1
    exact ⟨s2, by simp [Sequencer.run, h1, h2], hinv2⟩

/-- C15: from any sequencer object, `init()` followed by any sequence of
`update`, `togglePlay`, `stop`, `setBPM`, `adjustBPM`, `setPatternLength`,
`adjustPatternLength`, pattern edits and cursor moves, with arbitrary
arguments, has a result, and that state satisfies `currentStep <
patternLength`, `1 <= patternLength <= 8`, `60 <= bpm <= 240`,
`stepIntervalMs = 15000 / bpm`, `cursor.row < 4` and `cursor.col <
patternLength`. -/
theorem reachable_invariant (s0 : Sequencer) (cmds : List Command) :
    ∃ s1 s, s0.init = some s1 ∧ s1.run cmds = some s ∧
      s.playback.currentStep < s.playback.patternLength ∧
      1 ≤ s.playback.patternLength ∧ s.playback.patternLength ≤ 8 ∧
      60 ≤ s.playback.bpm ∧ s.playback.bpm ≤ 240 ∧
      s.playback.stepIntervalMs = 15000 / s.playback.bpm ∧
      s.cursor.row < 4 ∧ s.cursor.col < s.playback.patternLength := by
  obtain ⟨s1, h1, hinv1⟩ := init_inv s0
  obtain ⟨s, h2, hinv⟩ := run_inv cmds s1 hinv1
  exact ⟨s1, s, h1, h2, hinv⟩

/-! ## Steps dispatched after a start -/

/-- One run of the dispatch block while playing: either nothing changes, or
the playhead advances by one step modulo the pattern length and the calls for
the new step are made. -/
theorem dispatch_playing (s : Sequencer) (now : Nat) (hp : s.playback.isPlaying = true)
    (hlen : 1 ≤ s.playback.patternLength) (h256 : s.playback.patternLength < 2 ^ 8) :
    dispatch s now = some (s, false, []) ∨
      dispatch s now =
        some ({ s with
                playback :=
                  { s.playback with
                    lastStepTimeMs := now
                    currentStep := (s.playback.currentStep + 1) % s.playback.patternLength } },
          true,
          triggerStep s.pattern ((s.playback.currentStep + 1) % s.playback.patternLength)) := by
  have hne : s.playback.patternLength ≠ 0 := by omega
  have hmod : (s.playback.currentStep + 1) % s.playback.patternLength % 256
      = (s.playback.currentStep + 1) % s.playback.patternLength := by
    apply Nat.mod_eq_of_lt
    have := Nat.mod_lt (s.playback.currentStep + 1) hlen
    have h : s.playback.patternLength < 256 := h256
    omega
  by_cases hdue : (now + 2 ^ 32 - s.playback.lastStepTimeMs) % 2 ^ 32
      ≥ s.playback.stepIntervalMs
  · right
    have hup : s.update now =
        some (true,
          { s with
            playback :=
              { s.playback with
                lastStepTimeMs := now
                currentStep := (s.playback.currentStep + 1) % s.playback.patternLength } }) := by
      unfold Sequencer.update
      rw [if_neg (by simp [hp]), if_pos hdue, if_neg hne, hmod]
    unfold dispatch
    rw [if_pos hp, hup]
    rfl
  · left
    have hup : s.update now = some (false, s) := by
      unfold Sequencer.update
      rw [if_neg (by simp [hp]), if_neg hdue]
    unfold dispatch
    rw [if_pos hp, hup]
    rfl

/-- While playing, the `k`-th step change (counted from 0) of a series of
runs dispatches step `(currentStep + 1 + k) mod patternLength`, with the calls
for that step. -/
theorem ticks_playing (times : List Nat) : ∀ (s : Sequencer),
    s.playback.isPlaying = true → 1 ≤ s.playback.patternLength →
    s.playback.patternLength < 2 ^ 8 →
    ∃ s2 log, ticks s times = some (s2, log) ∧
      log = (List.range log.length).map (fun k =>
        ((s.playback.currentStep + 1 + k) % s.playback.patternLength,
          triggerStep s.pattern
            ((s.playback.currentStep + 1 + k) % s.playback.patternLength))) := by
  induction times with
  | nil =>
    intro s _ _ _
    exact ⟨s, [], rfl, rfl⟩
  | cons now rest ih =>
    intro s hp hlen h256
    rcases dispatch_playing s now hp hlen h256 with hd | hd
    · obtain ⟨s2, log, h1, h2⟩ := ih s hp hlen h256
      refine ⟨s2, log, ?_, h2⟩
      simp only [ticks, hd, h1]
      rfl
    · obtain ⟨s2, log, h1, h2⟩ := ih
        { s with
          playback :=
            { s.playback with
              lastStepTimeMs := now
              currentStep := (s.playback.currentStep + 1) % s.playback.patternLength } }
        hp hlen h256
      refine ⟨s2,
        ((s.playback.currentStep + 1) % s.playback.patternLength,
          triggerStep s.pattern ((s.playback.currentStep + 1) % s.playback.patternLength))
          :: log, ?_, ?_⟩
      · simp only [ticks, hd, h1]
        rfl
      · simp only [List.length_cons, List.range_succ_eq_map, List.map_cons, List.map_map]
        congr 1
        conv_lhs => rw [h2]
        apply List.map_congr_left
        intro k _
        simp only [Function.comp]
        have hk : ((s.playback.currentStep + 1) % s.playback.patternLength + 1 + k)
            % s.playback.patternLength
            = (s.playback.currentStep + 1 + (k + 1)) % s.playback.patternLength := by
          rw [Nat.add_assoc, Nat.mod_add_mod]
          congr 1
          omega
        rw [hk]

/-- The entry at index `k` of a list computed index by index. -/
theorem map_range_getElem? {α : Type} (f : Nat → α) (n k : Nat) (e : α)
    (h : ((List.range n).map f)[k]? = some e) : e = f k := by
  rw [List.getElem?_map] at h
  by_cases hk : k < n
  · rw [List.getElem?_range hk] at h
    simpa using h.symm
  · rw [List.getElem?_eq_none (by simpa using hk)] at h
    cases h

/-- C16: after `togglePlay` has started playback from Stopped, any series of
runs of the dispatch block has a result, and its `k`-th step change (counted
from 0) dispatches step `(k + 1) mod L` with the calls for that step, `L`
being the pattern length.  So with `L >= 2` the first step dispatched is step
1, the steps dispatched before the `L`-th change are `1 .. L - 1`, and step 0 is
dispatched at the `L`-th change; with `L = 1` every change dispatches step 0. -/
theorem steps_after_start (s : Sequencer) (millis : Nat) (times : List Nat)
    (hstop : s.playback.isPlaying = false) (hlen : 1 ≤ s.playback.patternLength)
    (h256 : s.playback.patternLength < 2 ^ 8) :
    ∃ s2 log, ticks (s.togglePlay millis) times = some (s2, log) ∧
      (∀ (k : Nat) (e : Nat × List Trigger), log[k]? = some e →
        e.1 = (k + 1) % s.playback.patternLength ∧ e.2 = triggerStep s.pattern e.1) ∧
      (2 ≤ s.playback.patternLength → ∀ (e : Nat × List Trigger), log[0]? = some e → e.1 = 1) ∧
      (∀ (k : Nat) (e : Nat × List Trigger), log[k]? = some e → k + 1 < s.playback.patternLength → e.1 = k + 1) ∧
      (∀ (k : Nat) (e : Nat × List Trigger), log[k]? = some e → k + 1 = s.playback.patternLength → e.1 = 0) ∧
      (s.playback.patternLength = 1 → ∀ (k : Nat) (e : Nat × List Trigger), log[k]? = some e → e.1 = 0) := by
  have hplay : (s.togglePlay millis).playback.isPlaying = true := by
    simp [Sequencer.togglePlay, hstop]
  have hcs : (s.togglePlay millis).playback.currentStep = 0 := by
    simp [Sequencer.togglePlay, hstop]
  have hpl : (s.togglePlay millis).playback.patternLength = s.playback.patternLength := by
    simp [Sequencer.togglePlay, hstop]
  have hpat : (s.togglePlay millis).pattern = s.pattern := by
    simp [Sequencer.togglePlay, hstop]
  obtain ⟨s2, log, h1, h2⟩ := ticks_playing times (s.togglePlay millis) hplay
    (by rw [hpl]; exact hlen) (by rw [hpl]; exact h256)
  rw [hcs, hpl, hpat] at h2
  have hentry : ∀ (k : Nat) (e : Nat × List Trigger), log[k]? = some e →
      e.1 = (k + 1) % s.playback.patternLength ∧ e.2 = triggerStep s.pattern e.1 := by
    intro k e hk
    rw [h2] at hk
    have he := map_range_getElem? _ _ _ _ hk
    rw [he]
    refine ⟨?_, rfl⟩
    show (0 + 1 + k) % s.playback.patternLength = (k + 1) % s.playback.patternLength
    rw [Nat.zero_add, Nat.add_comm]
  refine ⟨s2, log, h1, hentry, ?_, ?_, ?_, ?_⟩
  · intro h2le e he
    rw [(hentry 0 e he).1]
    exact Nat.mod_eq_of_lt (by omega)
  · intro k e he hlt
    rw [(hentry k e he).1]
    exact Nat.mod_eq_of_lt hlt
  · intro k e he heq
    rw [(hentry k e he).1, heq]
    exact Nat.mod_self _
  · intro h1eq k e he
    rw [(hentry k e he).1, h1eq]
    exact Nat.mod_one _

/-- Witness for C16: started from the initial state with eight steps, three
runs of the dispatch block spaced 125 ms apart dispatch steps 1, 2 and 3. -/
theorem steps_after_start_witness :
    seqInitial.playback.isPlaying = false ∧ 1 ≤ seqInitial.playback.patternLength ∧
      seqInitial.playback.patternLength < 2 ^ 8 ∧
      (ticks (seqInitial.togglePlay 1000) [1125, 1250, 1300, 1375]).map
          (fun r => r.2.map Prod.fst) = some [1, 2, 3] ∧
      ∃ s2 log, ticks (seqInitial.togglePlay 1000) [1125, 1250, 1300, 1375] = some (s2, log) ∧
        (∀ (k : Nat) (e : Nat × List Trigger), log[k]? = some e →
          e.1 = (k + 1) % seqInitial.playback.patternLength ∧
            e.2 = triggerStep seqInitial.pattern e.1) :=
  have h := steps_after_start seqInitial 1000 [1125, 1250, 1300, 1375] rfl (by decide)
    (by decide)
  ⟨rfl, by decide, by decide, rfl,
    h.elim (fun s2 h2 => h2.elim (fun log h3 => ⟨s2, log, h3.1, h3.2.1⟩))⟩

end StepDrum
